import Mathlib

/-!
Verification of the time-machine snapshot/restore skill.

The Python sources under `skills/time_machine/` are embedded shallowly:
pure string manipulation is translated to functions on `List Char` /
`String`, Python `dict`s become association lists, and the four
orchestrator operations (`snapshot`, `list`, `diff`, `restore`) become
pure functions over an oracle that supplies the results of every
external `git` / `dvc` / filesystem / audit call, together with a trace
of the calls that were issued.
-/

namespace TMSkill

/-- Python `str` whitespace (the set used by `str.split()` / `str.strip()`),
identified by code point. -/
def pyIsSpace (c : Char) : Bool :=
  let n := c.toNat
  decide (n = 32 ∨ (9 ≤ n ∧ n ≤ 13) ∨ (28 ≤ n ∧ n ≤ 31) ∨ n = 0x85 ∨ n = 0xa0 ∨
    n = 0x1680 ∨ (0x2000 ≤ n ∧ n ≤ 0x200a) ∨ n = 0x2028 ∨ n = 0x2029 ∨
    n = 0x202f ∨ n = 0x205f ∨ n = 0x3000)

/-- Line-boundary characters recognised by Python `str.splitlines`
(besides the two-character boundary `"\r\n"`). -/
def pyIsLineBreak (c : Char) : Bool :=
  let n := c.toNat
  decide (n = 10 ∨ n = 13 ∨ n = 11 ∨ n = 12 ∨ (28 ≤ n ∧ n ≤ 30) ∨ n = 0x85 ∨
    n = 0x2028 ∨ n = 0x2029)

/-- Collapse the two-character line boundary `"\r\n"` to a single `'\n'`,
so that `pySplitlinesGo` only has to deal with one-character boundaries. -/
def normNewlines : List Char → List Char
  | [] => []
  | '\r' :: '\n' :: cs => '\n' :: normNewlines cs
  | c :: cs => c :: normNewlines cs

/-- Worker for `pySplitlines`; `acc` holds the current line reversed. -/
def pySplitlinesGo (acc : List Char) : List Char → List (List Char)
  | [] => [acc.reverse]
  | c :: cs =>
    if pyIsLineBreak c then
      acc.reverse :: (if cs.isEmpty then [] else pySplitlinesGo [] cs)
    else pySplitlinesGo (c :: acc) cs

/-- Python `str.splitlines()`. -/
def pySplitlines (cs : List Char) : List (List Char) :=
  match normNewlines cs with
  | [] => []
  | rest => pySplitlinesGo [] rest

/-- Worker for `pySplitWs`; `acc` holds the current token reversed. -/
def pySplitWsGo (acc : List Char) : List Char → List (List Char)
  | [] => if acc.isEmpty then [] else [acc.reverse]
  | c :: cs =>
    if pyIsSpace c then
      if acc.isEmpty then pySplitWsGo [] cs else acc.reverse :: pySplitWsGo [] cs
    else pySplitWsGo (c :: acc) cs

/-- Python `str.split()` with no argument: split on runs of whitespace,
discarding empty tokens. -/
def pySplitWs (cs : List Char) : List (List Char) := pySplitWsGo [] cs

/-- Prepend a character to the first part of a split result. -/
def consHead (d : Char) : List (List Char) → List (List Char)
  | [] => [[d]]
  | l :: ls => (d :: l) :: ls

/-- Python `str.split(sep)` for a one-character separator `sep`
(all occurrences, empty parts kept). -/
def pySplitChar (c : Char) : List Char → List (List Char)
  | [] => [[]]
  | d :: ds => if d = c then [] :: pySplitChar c ds else consHead d (pySplitChar c ds)

/-- Python `str.split(sep, 1)` for a one-character separator: the part
before the first occurrence, and (if the separator occurs) the remainder. -/
def breakAtChar (c : Char) : List Char → List Char × Option (List Char)
  | [] => ([], none)
  | d :: ds =>
    if d = c then ([], some ds)
    else
      let p := breakAtChar c ds
      (d :: p.1, p.2)

/-- Python `sub in s` for the two-character substring `[a, b]`. -/
def containsSub2 (a b : Char) : List Char → Bool
  | [] => false
  | [_] => false
  | c :: d :: cs => (c = a ∧ d = b : Bool) || containsSub2 a b (d :: cs)

/-- Python `str.split(sub)` for the two-character separator `[a, b]`
(left-to-right, non-overlapping). -/
def pySplitSub2 (a b : Char) : List Char → List (List Char)
  | [] => [[]]
  | [c] => [[c]]
  | c :: d :: cs =>
    if c = a ∧ d = b then [] :: pySplitSub2 a b cs
    else consHead c (pySplitSub2 a b (d :: cs))

/-- Python `str.strip()` (strip `str` whitespace from both ends). -/
def pyStrip (cs : List Char) : List Char :=
  ((cs.dropWhile pyIsSpace).reverse.dropWhile pyIsSpace).reverse

/-- Python `str.rstrip(c)` for a one-character argument. -/
def pyRstrip (c : Char) (cs : List Char) : List Char :=
  (cs.reverse.dropWhile (fun d => d = c)).reverse

/-- Python `str.startswith(pre)`. -/
def pyStartsWith (cs pre : List Char) : Bool := pre.isPrefixOf cs

/-- Python `str.partition("\n\n")` restricted to what the code consumes:
the part before the first occurrence of a double newline, and the part
after it (empty if the separator does not occur, which the caller treats
the same as an empty body). -/
def pyPartitionNN : List Char → List Char × List Char
  | [] => ([], [])
  | c :: cs =>
    if c = '\n' then
      match cs with
      | d :: ds =>
        if d = '\n' then ([], ds)
        else
          let p := pyPartitionNN cs
          (c :: p.1, p.2)
      | [] => ([c], [])
    else
      let p := pyPartitionNN cs
      (c :: p.1, p.2)

/-- Last element of a split result (Python `parts[-1]`); split results are
never empty, the default is unreachable. -/
def lastPart (ls : List (List Char)) : List Char := ls.getLastD []

/-- Python `sorted(set(xs))` for a list of strings: distinct elements in
ascending lexicographic (code-point) order. -/
def sortedDedup (xs : List String) : List String :=
  List.insertionSort (· ≤ ·) xs.dedup

/-- Python `", ".join(xs)`. -/
def joinCommaSpace (xs : List String) : String := String.intercalate ", " xs

/-- Python `path.split("/")[0]`: the top-level path component. -/
def topComponent (p : String) : String := String.mk (breakAtChar '/' p.data).1

/-- Transformation applied to one non-empty `git status --porcelain` line
inside `TimeMachine._parse_changed_paths`: drop the 3-character status
column, and for rename entries keep only the (stripped) new path. -/
def statusLineToPath (line : List Char) : List Char :=
  let path := line.drop 3
  if containsSub2 '-' '>' path then pyStrip (lastPart (pySplitSub2 '-' '>' path))
  else path

/-- Model of `TimeMachine._parse_changed_paths`. -/
def parse_changed_paths (statusOutput : String) : List String :=
  sortedDedup
    (((pySplitlines statusOutput.data).filter (fun l => ¬l.isEmpty)).map
      (fun l => String.mk (statusLineToPath l)))

/-- Model of `TimeMachine._protected_paths_touched` (the Python set
comprehension, as the sublist of hits). -/
def protected_paths_touched (protectedPaths : List String) (changedPaths : List String) :
    List String :=
  changedPaths.filter (fun p => protectedPaths.contains (topComponent p))

/-- Append `v` to the entry of `k` in an insertion-ordered association
list, creating the entry if needed (Python `dict.setdefault(k, []).append(v)`). -/
def dictAppend (m : List (String × List String)) (k : String) (v : String) :
    List (String × List String) :=
  match m with
  | [] => [(k, [v])]
  | (k', vs) :: rest =>
    if k' = k then (k', vs ++ [v]) :: rest else (k', vs) :: dictAppend rest k v

/-- Python `dict.get(k, [])` on an insertion-ordered association list. -/
def dictGet (m : List (String × List String)) (k : String) : List String :=
  match m with
  | [] => []
  | (k', vs) :: rest => if k' = k then vs else dictGet rest k

/-- The snapshot id a slash-containing tag is grouped under:
Python `tag.split("/", 1)[1]`, i.e. everything after the first slash. -/
def afterFirstSlash (tag : String) : String :=
  String.mk (((breakAtChar '/' tag.data).2).getD [])

/-- Model of `TimeMachine._tags_by_snapshot`. -/
def tags_by_snapshot (tags : List String) : List (String × List String) :=
  tags.foldl
    (fun m tag =>
      if tag.data.contains '/' then dictAppend m (afterFirstSlash tag) tag else m)
    []

/-- JSON values as handled by Python `json.dumps` / `json.loads` here.
Objects keep their members in source order (lookups take the last
occurrence of a key, as building a Python `dict` does); numbers keep
their source lexeme, since no caller of the parser inspects a numeric
value. -/
inductive Json where
  | str (s : String)
  | num (lexeme : String)
  | bool (b : Bool)
  | null
  | arr (elems : List Json)
  | obj (members : List (String × Json))
deriving Repr

/-- An opening curly brace character. -/
def lbrace : Char := Char.ofNat 123

/-- A closing curly brace character. -/
def rbrace : Char := Char.ofNat 125

/-- Lower-case hexadecimal digit for a value below 16. -/
def hexDigitChar (n : Nat) : Char :=
  if n < 10 then Char.ofNat (48 + n) else Char.ofNat (87 + n)

/-- How `json.dumps(..., ensure_ascii=False)` renders one character inside
a string literal: it escapes the quote, the backslash and the C0 control
characters, and passes everything else through. -/
def escCharJson (c : Char) : List Char :=
  if c = '"' then ['\\', '"']
  else if c = '\\' then ['\\', '\\']
  else if c = '\n' then ['\\', 'n']
  else if c = '\t' then ['\\', 't']
  else if c = '\r' then ['\\', 'r']
  else if c.toNat = 8 then ['\\', 'b']
  else if c.toNat = 12 then ['\\', 'f']
  else if c.toNat < 32 then
    ['\\', 'u', '0', '0', hexDigitChar (c.toNat / 16), hexDigitChar (c.toNat % 16)]
  else [c]

/-- Escape a whole string body. -/
def escString : List Char → List Char
  | [] => []
  | c :: cs => escCharJson c ++ escString cs

/-- Serialized JSON string literal. -/
def dumpStringJ (s : String) : List Char := '"' :: escString s.data ++ ['"']

mutual
/-- Model of `json.dumps(v, ensure_ascii=False)` with the default
`", "` / `": "` separators. -/
def jsonDumps : Json → List Char
  | .str s => dumpStringJ s
  | .num lx => lx.data
  | .bool b => if b then "true".data else "false".data
  | .null => "null".data
  | .arr es => '[' :: dumpElems es ++ [']']
  | .obj ms => lbrace :: dumpMembers ms ++ [rbrace]

/-- Serialize array elements, separated by `", "`. -/
def dumpElems : List Json → List Char
  | [] => []
  | [e] => jsonDumps e
  | e :: es => jsonDumps e ++ ',' :: ' ' :: dumpElems es

/-- Serialize object members, separated by `", "`, keys and values
separated by `": "`. -/
def dumpMembers : List (String × Json) → List Char
  | [] => []
  | [(k, v)] => dumpStringJ k ++ ':' :: ' ' :: jsonDumps v
  | (k, v) :: ms => dumpStringJ k ++ ':' :: ' ' :: jsonDumps v ++ ',' :: ' ' :: dumpMembers ms
end

/-- JSON inter-token whitespace. -/
def jsonWsChar (c : Char) : Bool := c = ' ' || c = '\t' || c = '\n' || c = '\r'

/-- Skip JSON whitespace. -/
def skipJsonWs (cs : List Char) : List Char := cs.dropWhile jsonWsChar

/-- Value of a hexadecimal digit. -/
def hexVal (c : Char) : Option Nat :=
  if '0' ≤ c ∧ c ≤ '9' then some (c.toNat - 48)
  else if 'a' ≤ c ∧ c ≤ 'f' then some (c.toNat - 87)
  else if 'A' ≤ c ∧ c ≤ 'F' then some (c.toNat - 55)
  else none

/-- Decimal digit test. -/
def isDigitChar (c : Char) : Bool := decide (48 ≤ c.toNat ∧ c.toNat ≤ 57)

/-- Parse the body of a JSON string literal after the opening quote, up to
and including the closing quote; returns the decoded characters and the
rest of the input.  Strict mode: raw control characters are rejected. -/
def parseStringBody : List Char → Option (List Char × List Char)
  | [] => none
  | c :: cs =>
    if c = '"' then some ([], cs)
    else if c = '\\' then
      match cs with
      | [] => none
      | e :: cs' =>
        if e = '"' ∨ e = '\\' ∨ e = '/' then
          (parseStringBody cs').map (fun p => (e :: p.1, p.2))
        else if e = 'b' then (parseStringBody cs').map (fun p => (Char.ofNat 8 :: p.1, p.2))
        else if e = 'f' then (parseStringBody cs').map (fun p => (Char.ofNat 12 :: p.1, p.2))
        else if e = 'n' then (parseStringBody cs').map (fun p => ('\n' :: p.1, p.2))
        else if e = 'r' then (parseStringBody cs').map (fun p => ('\r' :: p.1, p.2))
        else if e = 't' then (parseStringBody cs').map (fun p => ('\t' :: p.1, p.2))
        else if e = 'u' then
          match cs' with
          | h1 :: h2 :: h3 :: h4 :: cs'' =>
            match hexVal h1, hexVal h2, hexVal h3, hexVal h4 with
            | some a, some b, some c2, some d =>
              (parseStringBody cs'').map
                (fun p => (Char.ofNat (a * 4096 + b * 256 + c2 * 16 + d) :: p.1, p.2))
            | _, _, _, _ => none
          | _ => none
        else none
    else if c.toNat < 32 then none
    else (parseStringBody cs).map (fun p => (c :: p.1, p.2))

/-- Parse one or more decimal digits. -/
def parseDigits (cs : List Char) : Option (List Char × List Char) :=
  let ds := cs.takeWhile isDigitChar
  if ds.isEmpty then none else some (ds, cs.drop ds.length)

/-- Parse the integer part of a JSON number (no leading zeros). -/
def parseIntPart (cs : List Char) : Option (List Char × List Char) :=
  match cs with
  | c :: rest =>
    if c = '0' then some ([c], rest)
    else if isDigitChar c then parseDigits cs
    else none
  | [] => none

/-- Parse an optional fraction part; a bare dot is an error. -/
def parseFracPart (cs : List Char) : Option (List Char × List Char) :=
  match cs with
  | c :: rest =>
    if c = '.' then (parseDigits rest).map (fun p => ('.' :: p.1, p.2))
    else some ([], cs)
  | [] => some ([], cs)

/-- Parse an optional exponent part; a bare `e` is an error. -/
def parseExpPart (cs : List Char) : Option (List Char × List Char) :=
  match cs with
  | c :: rest =>
    if c = 'e' ∨ c = 'E' then
      let sr : List Char × List Char :=
        match rest with
        | d :: ds => if d = '+' ∨ d = '-' then ([d], ds) else ([], rest)
        | [] => ([], rest)
      (parseDigits sr.2).map (fun p => (c :: sr.1 ++ p.1, p.2))
    else some ([], cs)
  | [] => some ([], cs)

/-- Parse a JSON number lexeme (after an optional leading minus sign,
which the caller handles). -/
def parseNumberTail (cs : List Char) : Option (List Char × List Char) :=
  match parseIntPart cs with
  | none => none
  | some (ip, r1) =>
    match parseFracPart r1 with
    | none => none
    | some (fp, r2) =>
      match parseExpPart r2 with
      | none => none
      | some (ep, r3) => some (ip ++ fp ++ ep, r3)

/-- Parse a fixed literal token. -/
def parseLit (lit : List Char) (v : Json) (cs : List Char) : Option (Json × List Char) :=
  if lit.isPrefixOf cs then some (v, cs.drop lit.length) else none

mutual
/-- Recursive descent for one JSON value; `fuel` only bounds the recursion
depth and is chosen large enough by `jsonLoads`. -/
def parseValue : Nat → List Char → Option (Json × List Char)
  | 0, _ => none
  | fuel + 1, cs =>
    match skipJsonWs cs with
    | [] => none
    | c :: rest =>
      if c = '"' then
        (parseStringBody rest).map (fun p => (Json.str (String.mk p.1), p.2))
      else if c = '[' then
        match skipJsonWs rest with
        | d :: rest2 =>
          if d = ']' then some (.arr [], rest2)
          else (parseElems fuel (skipJsonWs rest)).map (fun p => (Json.arr p.1, p.2))
        | [] => none
      else if c = lbrace then
        match skipJsonWs rest with
        | d :: _ =>
          if d = rbrace then some (.obj [], (skipJsonWs rest).tail)
          else (parseMembers fuel (skipJsonWs rest)).map (fun p => (Json.obj p.1, p.2))
        | [] => none
      else if c = 't' then parseLit "true".data (.bool true) (c :: rest)
      else if c = 'f' then parseLit "false".data (.bool false) (c :: rest)
      else if c = 'n' then parseLit "null".data .null (c :: rest)
      else if c = 'N' then parseLit "NaN".data (.num "NaN") (c :: rest)
      else if c = 'I' then parseLit "Infinity".data (.num "Infinity") (c :: rest)
      else if c = '-' then
        if "Infinity".data.isPrefixOf rest then some (.num "-Infinity", rest.drop 8)
        else (parseNumberTail rest).map (fun p => (Json.num (String.mk ('-' :: p.1)), p.2))
      else if isDigitChar c then
        (parseNumberTail (c :: rest)).map (fun p => (Json.num (String.mk p.1), p.2))
      else none

/-- Parse the elements of a non-empty array, up to and including the
closing bracket. -/
def parseElems : Nat → List Char → Option (List Json × List Char)
  | 0, _ => none
  | fuel + 1, cs =>
    match parseValue fuel cs with
    | none => none
    | some (v, rest) =>
      match skipJsonWs rest with
      | c :: rest2 =>
        if c = ',' then
          match parseElems fuel rest2 with
          | some (vs, rest3) => some (v :: vs, rest3)
          | none => none
        else if c = ']' then some ([v], rest2)
        else none
      | [] => none

/-- Parse the members of a non-empty object, up to and including the
closing brace. -/
def parseMembers : Nat → List Char → Option (List (String × Json) × List Char)
  | 0, _ => none
  | fuel + 1, cs =>
    match skipJsonWs cs with
    | c :: rest =>
      if c = '"' then
        match parseStringBody rest with
        | none => none
        | some (k, rest2) =>
          match skipJsonWs rest2 with
          | d :: rest3 =>
            if d = ':' then
              match parseValue fuel rest3 with
              | none => none
              | some (v, rest4) =>
                match skipJsonWs rest4 with
                | e :: rest5 =>
                  if e = ',' then
                    match parseMembers fuel rest5 with
                    | some (ms, rest6) => some ((String.mk k, v) :: ms, rest6)
                    | none => none
                  else if e = rbrace then some ([(String.mk k, v)], rest5)
                  else none
                | [] => none
            else none
          | [] => none
      else none
    | [] => none
end

/-- Model of Python `json.loads`: parse one document, allowing only
whitespace around it. -/
def jsonLoads (s : String) : Option Json :=
  match parseValue (s.data.length + 1) s.data with
  | some (v, rest) => if (skipJsonWs rest).isEmpty then some v else none
  | none => none

/-- Python `dict.get(k)` on a JSON object built by `json.loads`: the last
binding of a key wins. -/
def objGetLast (ms : List (String × Json)) (k : String) : Option Json :=
  match ms with
  | [] => none
  | (k', v) :: rest =>
    match objGetLast rest k with
    | some r => some r
    | none => if k' = k then some v else none

/-- Error kinds of the skill (`errors.py`), carrying the Python exception
message.  `command` is `CommandError` (the only failure an external tool
call raises), `other` covers non-`TimeMachineError` exceptions such as
filesystem errors from the audit writer or `IndexError` / `ValueError` /
`AttributeError` raised while parsing history. -/
inductive Err where
  | command (msg : String)
  | protectedPath (msg : String)
  | dirtyWorkspace (msg : String)
  | verification (msg : String)
  | other (msg : String)
deriving Repr, DecidableEq

/-- The `str(exc)` of an error. -/
def Err.message : Err → String
  | .command m => m
  | .protectedPath m => m
  | .dirtyWorkspace m => m
  | .verification m => m
  | .other m => m

/-- Configuration fields of `config.yaml` consumed by `tm.py`. -/
structure Config where
  protectedPaths : List String
  riskLevels : List (String × String)
  remoteOptional : Bool
  listLimit : Nat
  requiredPaths : List String
  healthcheckCmd : Option (List String)
deriving Repr

/-- Python `self.config["risk_levels"].get(level, "")`. -/
def riskNote (cfg : Config) (level : String) : String :=
  (((cfg.riskLevels.find? (fun p => p.1 = level)).map Prod.snd)).getD ""

/-- Python `reason or "No reason provided"`. -/
def reasonText (reason : Option String) : String :=
  match reason with
  | none => "No reason provided"
  | some r => if r = "" then "No reason provided" else r

/-- The body dictionary serialized into the commit message. -/
def envelopeBody (reasonT risk : String) (changedPaths : List String) : Json :=
  .obj
    [("reason", .str reasonT),
     ("changed_paths", .arr (changedPaths.map .str)),
     ("risk", .str risk)]

/-- Model of `TimeMachine._build_commit_message`: header line, blank line,
JSON body. -/
def build_commit_message (cfg : Config) (snapshotId level : String)
    (reason : Option String) (changedPaths : List String) : String :=
  "TimeMachine snapshot " ++ snapshotId ++ " [" ++ level ++ "]\n\n" ++
    String.mk (jsonDumps (envelopeBody (reasonText reason) (riskNote cfg level) changedPaths))

/-- Unicode control characters (categories Cc: U+0000-U+001F and
U+007F-U+009F); the claims' "control characters". -/
def isCtrlChar (c : Char) : Bool :=
  decide (c.toNat < 32 ∨ (127 ≤ c.toNat ∧ c.toNat ≤ 159))

/-- A string with no control characters. -/
def hasNoCtrl (s : String) : Prop := ∀ c ∈ s.data, isCtrlChar c = false

instance (s : String) : Decidable (hasNoCtrl s) := by unfold hasNoCtrl; infer_instance

/-- Characters that `generate_snapshot_id` can produce: dash, digits and
lower-case ASCII letters. -/
def validSidChar (c : Char) : Bool :=
  decide (c.toNat = 45 ∨ (48 ≤ c.toNat ∧ c.toNat ≤ 57) ∨ (97 ≤ c.toNat ∧ c.toNat ≤ 122))

/-- Shape of a generated snapshot id, as far as the envelope parsing
depends on it. -/
def validSnapshotId (s : String) : Prop :=
  s.data ≠ [] ∧ ∀ c ∈ s.data, validSidChar c = true

instance (s : String) : Decidable (validSnapshotId s) := by
  unfold validSnapshotId; infer_instance

/-- One parsed history entry, as assembled by `TimeMachine._collect_snapshots`.
`reason` holds whatever JSON value `payload.get("reason")` returned. -/
structure Entry where
  snapshotId : String
  time : String
  level : String
  reason : Option Json
  tags : List String
  gitCommit : String
deriving Repr

/-- Parse the records of one `git log` output (split at `\x1e`) into
entries; any Python exception raised inside the loop is an `Except.error`.
Mirrors `TimeMachine._collect_snapshots`. -/
def collectRecords (tagMap : List (String × List String)) :
    List (List Char) → Except Err (List Entry)
  | [] => .ok []
  | r :: rs =>
    if (pyStrip r).isEmpty then collectRecords tagMap rs
    else
      match breakAtChar (Char.ofNat 31) r with
      | (_, none) => .error (.other "not enough values to unpack (expected 2, got 1)")
      | (commitHash, some message) =>
        if ¬pyStartsWith message "TimeMachine snapshot".data then collectRecords tagMap rs
        else
          let hb := pyPartitionNN message
          let header := hb.1
          let body := hb.2
          match (pySplitWs header).get? 2 with
          | none => .error (.other "list index out of range")
          | some sid =>
            let level := pyRstrip ']' (lastPart (pySplitChar '[' header))
            let reasonStep : Except Err (Option Json) :=
              if body.isEmpty then .ok none
              else
                match jsonLoads (String.mk body) with
                | none => .ok none
                | some (Json.obj ms) => .ok (objGetLast ms "reason")
                | some _ => .error (.other "object has no attribute 'get'")
            match reasonStep with
            | .error e => .error e
            | .ok reason =>
              let sidStr := String.mk sid
              let entry : Entry :=
                { snapshotId := sidStr
                  time := String.mk (breakAtChar '-' sid).1
                  level := String.mk level
                  reason := reason
                  tags := dictGet tagMap sidStr
                  gitCommit := String.mk commitHash }
              match collectRecords tagMap rs with
              | .error e => .error e
              | .ok es => .ok (entry :: es)

/-- Model of `TimeMachine._collect_snapshots` applied to a `git log`
output string. -/
def collect_snapshots (logOutput : String) (tagMap : List (String × List String)) :
    Except Err (List Entry) :=
  collectRecords tagMap (pySplitChar (Char.ofNat 30) logOutput.data)

/-- Model of `TimeMachine._filter_entries`. -/
def filter_entries (entries : List Entry) (filt : String) : List Entry :=
  if filt = "all" then entries
  else if filt = "stable" ∨ filt = "pre-change" ∨ filt = "experiment" then
    entries.filter (fun e => e.tags.any (fun t => pyStartsWith t.data (filt ++ "/").data))
  else entries

/-- A broken-down local time as far as `time.strftime("%Y%m%d-%H%M%S", ...)`
consumes it. -/
structure Tm where
  year : Nat
  month : Nat
  day : Nat
  hour : Nat
  minute : Nat
  second : Nat
deriving Repr, DecidableEq

/-- Field bounds under which every field fits its zero-padded `strftime`
width (4 digits for the year, 2 for the rest). -/
def Tm.fits (t : Tm) : Prop :=
  t.year ≤ 9999 ∧ t.month ≤ 99 ∧ t.day ≤ 99 ∧ t.hour ≤ 99 ∧ t.minute ≤ 99 ∧
    t.second ≤ 99

instance (t : Tm) : Decidable t.fits := by unfold Tm.fits; infer_instance

/-- Chronological order on broken-down times: lexicographic by
(year, month, day, hour, minute, second). -/
def Tm.chronoLE (t1 t2 : Tm) : Prop :=
  [t1.year, t1.month, t1.day, t1.hour, t1.minute, t1.second] ≤
    [t2.year, t2.month, t2.day, t2.hour, t2.minute, t2.second]

instance (t1 t2 : Tm) : Decidable (t1.chronoLE t2) := by
  unfold Tm.chronoLE; infer_instance

/-- Zero-padded decimal rendering of `n` to exactly `w` digits
(`strftime` field formatting). -/
def padNum : Nat → Nat → List Char
  | 0, _ => []
  | w + 1, n => padNum w (n / 10) ++ [Char.ofNat (48 + n % 10)]

/-- The `time.strftime("%Y%m%d-%H%M%S", ...)` timestamp. -/
def formatTs (t : Tm) : String :=
  String.mk (padNum 4 t.year ++ (padNum 2 t.month ++ (padNum 2 t.day ++ (['-'] ++
    (padNum 2 t.hour ++ (padNum 2 t.minute ++ padNum 2 t.second))))))

/-- Model of `utils.generate_snapshot_id`: the formatted local time, a
dash, and a 4-character random suffix (supplied by the caller, as the
randomness source is external). -/
def generate_snapshot_id (t : Tm) (rand : String) : String :=
  formatTs t ++ "-" ++ rand

/-- The date-time portion of a snapshot id (everything before the random
suffix, i.e. the first 15 characters `YYYYMMDD-HHMMSS`). -/
def idDatePart (sid : String) : String := String.mk (sid.data.take 15)

/-- An audit record as far as the orchestrator's control flow depends on
it (`audit.py` additionally stores the operation arguments and result
payload, which no claim inspects). -/
structure AuditRec where
  ts : String
  action : String
  actor : String
  status : String
  error : Option String
deriving Repr, DecidableEq

/-- Model of `AuditLogger.human_summary`. -/
def human_summary (r : AuditRec) : String :=
  "[" ++ r.ts ++ "] " ++ r.action ++ " status=" ++ r.status ++ " actor=" ++ r.actor

/-- One external call issued by the orchestrator.  The trace of these
effects is what "touching the repository" means in the model. -/
inductive Effect where
  | gitStatus
  | gitAddAll
  | gitCommit (message : String)
  | gitTag (name : String)
  | gitTagList
  | gitLog (limit : Nat)
  | gitCheckout (version : String)
  | gitRevParse (target : String)
  | gitDiffNames (a b : String)
  | gitDiffStat (a b : String)
  | gitDiffShortstat (a b : String)
  | gitDiffNumstat (a b : String)
  | dvcAdd (path : String)
  | dvcPush
  | dvcCheckout
  | dvcRemoteList
  | healthcheck
  | auditWrite (record : AuditRec)
deriving Repr, DecidableEq

/-- Results of every external call, fixed up front: each fallible backend
call either yields its value or the message of the `CommandError`
(resp. `OSError` for the audit writer) it raises. -/
structure Oracle where
  gitStatus : Except String String
  gitAddAll : Except String Unit
  gitCommit : String → Except String String
  gitTag : String → Except String Unit
  gitTagList : Except String (List String)
  gitLog : Nat → Except String String
  gitCheckout : String → Except String Unit
  gitRevParse : String → Except String String
  gitDiffNames : String → String → Except String (List String)
  gitDiffStat : String → String → Except String String
  gitDiffShortstat : String → String → Except String String
  gitDiffNumstat : String → String → Except String (List String)
  dvcAvailable : Bool
  dvcInitialized : Bool
  dvcAdd : String → Except String Unit
  dvcPush : Except String Unit
  dvcCheckout : Except String Unit
  dvcRemoteList : Except String Bool
  pathExists : String → Bool
  healthcheck : Except String String
  auditWrite : AuditRec → Except String String

/-- A finished computation: its outcome and the trace of calls issued. -/
def Run (α : Type) : Type := Except Err α × List Effect

/-- Sequencing of computations; on error the continuation is skipped. -/
def Run.bind {α β : Type} (x : Run α) (f : α → Run β) : Run β :=
  match x with
  | (.ok a, t) =>
    let y := f a
    (y.1, t ++ y.2)
  | (.error e, t) => (.error e, t)

/-- A pure value, no calls issued. -/
def Run.pure {α : Type} (a : α) : Run α := (.ok a, [])

instance {ε α : Type} [DecidableEq ε] [DecidableEq α] : DecidableEq (Except ε α) :=
  fun x y =>
    match x, y with
    | .ok a, .ok b =>
      if h : a = b then isTrue (by rw [h]) else isFalse (fun hh => h (Except.ok.inj hh))
    | .ok _, .error _ => isFalse (fun hh => Except.noConfusion hh)
    | .error _, .ok _ => isFalse (fun hh => Except.noConfusion hh)
    | .error e, .error f =>
      if h : e = f then isTrue (by rw [h]) else isFalse (fun hh => h (Except.error.inj hh))

instance {α : Type} [DecidableEq α] : DecidableEq (Run α) :=
  inferInstanceAs (DecidableEq (Except Err α × List Effect))

/-- Raise a `TimeMachineError`. -/
def Run.throw {α : Type} (e : Err) : Run α := (.error e, [])

/-- Issue one external tool call: the effect is recorded and a non-zero
exit becomes a `CommandError`. -/
def toolCall {α : Type} (eff : Effect) (r : Except String α) : Run α :=
  match r with
  | .ok a => (.ok a, [eff])
  | .error m => (.error (.command m), [eff])

/-- Issue the audit write: the effect is recorded and a filesystem
failure raises a non-domain error. -/
def auditCall (o : Oracle) (record : AuditRec) : Run String :=
  match o.auditWrite record with
  | .ok p => (.ok p, [.auditWrite record])
  | .error m => (.error (.other m), [.auditWrite record])

/-- The status=error audit record the `except` handler builds from a
caught exception. -/
def errRecord (ts action : String) (e : Err) : AuditRec :=
  { ts := ts, action := action, actor := "clawbot", status := "error",
    error := some e.message }

/-- The `except Exception` handler wrapped around each operation's body:
on failure it writes a status=error audit record carrying `str(exc)` and
re-raises; if that audit write itself raises, the new exception
propagates instead (Python semantics of an exception inside `except`). -/
def runAudited {α : Type} (o : Oracle) (ts action : String) (body : Run α) : Run α :=
  match body with
  | (.ok r, t) => (.ok r, t)
  | (.error e, t) =>
    match o.auditWrite (errRecord ts action e) with
    | .ok _ => (.error e, t ++ [.auditWrite (errRecord ts action e)])
    | .error m => (.error (.other m), t ++ [.auditWrite (errRecord ts action e)])

/-- Truthiness of the optional `reason` argument (Python `not reason`). -/
def reasonFalsy : Option String → Bool
  | none => true
  | some r => r = ""

/-- Model of `TimeMachine._needs_dvc`. -/
def needs_dvc (changedPaths : List String) : Bool :=
  changedPaths.any (fun p => topComponent p = "models" ∨ topComponent p = "data_snapshots")

/-- One iteration of the loop in `TimeMachine._dvc_add_paths`. -/
def dvcAddRoot (o : Oracle) (changedPaths : List String) (root : String) : Run Unit :=
  if changedPaths.any (fun p => pyStartsWith p.data root.data) then
    if o.pathExists root then toolCall (.dvcAdd root) (o.dvcAdd root)
    else Run.pure ()
  else Run.pure ()

/-- Model of `TimeMachine._dvc_add_paths` (the Python set literal
`{"models", "data_snapshots"}` iterated in some order; the order only
permutes trace entries). -/
def dvc_add_paths (o : Oracle) (changedPaths : List String) : Run Unit :=
  Run.bind (dvcAddRoot o changedPaths "models")
    (fun _ => dvcAddRoot o changedPaths "data_snapshots")

/-- Success payload of `snapshot`. -/
structure SnapResult where
  snapshotId : String
  gitCommit : String
  tags : List String
  changedFilesSummary : List String
  dvcStatus : String
  auditRecordPath : String
  summary : String
deriving Repr, DecidableEq

/-- The body of `TimeMachine.snapshot` (inside the `try`).  The snapshot
id is an input because its randomness source is external. -/
def snapshotBody (o : Oracle) (cfg : Config) (sid ts : String)
    (reason : Option String) (level : String) : Run SnapResult :=
  Run.bind (toolCall .gitStatus o.gitStatus) (fun statusOutput =>
    if ¬(protected_paths_touched cfg.protectedPaths
          (parse_changed_paths statusOutput)).isEmpty ∧ reasonFalsy reason then
      Run.throw (.protectedPath
        ("Protected paths modified without reason: " ++
          joinCommaSpace (sortedDedup (protected_paths_touched cfg.protectedPaths
            (parse_changed_paths statusOutput)))))
    else
      Run.bind
        (if needs_dvc (parse_changed_paths statusOutput) ∧
            o.dvcAvailable ∧ o.dvcInitialized then
          Run.bind (dvc_add_paths o (parse_changed_paths statusOutput))
            (fun _ => Run.pure "handled")
        else Run.pure "skipped")
        (fun dvcStatus1 =>
      Run.bind (toolCall .gitAddAll o.gitAddAll) (fun _ =>
      Run.bind
        (toolCall
          (.gitCommit (build_commit_message cfg sid level reason
            (parse_changed_paths statusOutput)))
          (o.gitCommit (build_commit_message cfg sid level reason
            (parse_changed_paths statusOutput))))
        (fun gitCommit =>
      Run.bind (toolCall (.gitTag ("pre-change/" ++ sid)) (o.gitTag ("pre-change/" ++ sid)))
        (fun _ =>
      Run.bind
        (if level = "critical" then
          Run.bind (toolCall (.gitTag ("stable/" ++ sid)) (o.gitTag ("stable/" ++ sid)))
            (fun _ => Run.pure ["pre-change/" ++ sid, "stable/" ++ sid])
        else Run.pure ["pre-change/" ++ sid])
        (fun tags =>
      Run.bind
        (if dvcStatus1 = "handled" ∧ o.dvcAvailable ∧ o.dvcInitialized then
          if cfg.remoteOptional then
            Run.bind (toolCall .dvcRemoteList o.dvcRemoteList) (fun hasRemote =>
              if hasRemote then
                Run.bind (toolCall .dvcPush o.dvcPush) (fun _ => Run.pure dvcStatus1)
              else Run.pure "handled-no-remote")
          else Run.bind (toolCall .dvcPush o.dvcPush) (fun _ => Run.pure dvcStatus1)
        else Run.pure dvcStatus1)
        (fun dvcStatus =>
      Run.bind
        (auditCall o
          { ts := ts, action := "snapshot", actor := "clawbot", status := "ok",
            error := none })
        (fun auditPath =>
      Run.pure
        { snapshotId := sid
          gitCommit := gitCommit
          tags := tags
          changedFilesSummary := parse_changed_paths statusOutput
          dvcStatus := dvcStatus
          auditRecordPath := auditPath
          summary := human_summary
            { ts := ts, action := "snapshot", actor := "clawbot", status := "ok",
              error := none } }))))))))

/-- Model of `TimeMachine.snapshot`. -/
def snapshot (o : Oracle) (cfg : Config) (sid ts : String)
    (reason : Option String) (level : String) : Run SnapResult :=
  runAudited o ts "snapshot" (snapshotBody o cfg sid ts reason level)

/-- Outcome of the post-restore verification step. -/
inductive VerOut where
  | skipped
  | report (requiredPathsOk : Bool) (healthcheckOutput : Option String)
deriving Repr, DecidableEq

/-- Model of `Verifier.verify`. -/
def verifierVerify (o : Oracle) (cfg : Config) : Run VerOut :=
  if ¬(cfg.requiredPaths.filter (fun p => ¬o.pathExists p)).isEmpty then
    Run.throw (.verification ("Missing required paths: " ++
      joinCommaSpace (cfg.requiredPaths.filter (fun p => ¬o.pathExists p))))
  else
    match cfg.healthcheckCmd with
    | none => Run.pure (.report true none)
    | some cmd =>
      if cmd.isEmpty then Run.pure (.report true none)
      else Run.bind (toolCall .healthcheck o.healthcheck)
        (fun out => Run.pure (.report true (some out)))

/-- Success payload of `restore`. -/
structure RestoreResult where
  restoredTo : String
  gitCommit : String
  dvcStatus : String
  verification : VerOut
  auditRecordPath : String
  summary : String
deriving Repr, DecidableEq

/-- The body of `TimeMachine.restore` (inside the `try`). -/
def restoreBody (o : Oracle) (cfg : Config) (ts version : String)
    (verify force : Bool) : Run RestoreResult :=
  Run.bind (toolCall .gitStatus o.gitStatus) (fun statusOutput =>
    if statusOutput ≠ "" ∧ ¬force then
      Run.throw (.dirtyWorkspace "Workspace is dirty. Run snapshot or set force=True.")
    else
      Run.bind (toolCall (.gitCheckout version) (o.gitCheckout version)) (fun _ =>
      Run.bind
        (if o.dvcAvailable ∧ o.dvcInitialized then
          Run.bind (toolCall .dvcCheckout o.dvcCheckout) (fun _ => Run.pure "handled")
        else Run.pure "skipped")
        (fun dvcStatus =>
      Run.bind (if verify then verifierVerify o cfg else Run.pure VerOut.skipped)
        (fun verification =>
      Run.bind (toolCall (.gitRevParse "HEAD") (o.gitRevParse "HEAD")) (fun head =>
      Run.bind
        (auditCall o
          { ts := ts, action := "restore", actor := "clawbot", status := "ok",
            error := none })
        (fun auditPath =>
      Run.pure
        { restoredTo := version
          gitCommit := head
          dvcStatus := dvcStatus
          verification := verification
          auditRecordPath := auditPath
          summary := human_summary
            { ts := ts, action := "restore", actor := "clawbot", status := "ok",
              error := none } }))))))

/-- Model of `TimeMachine.restore`. -/
def restore (o : Oracle) (cfg : Config) (ts version : String)
    (verify force : Bool) : Run RestoreResult :=
  runAudited o ts "restore" (restoreBody o cfg ts version verify force)

/-- Success payload of `list`. -/
structure ListResult where
  snapshots : List Entry
  auditRecordPath : String
  summary : String
deriving Repr

/-- The body of `TimeMachine.list` (inside the `try`). -/
def listBody (o : Oracle) (cfg : Config) (ts filt : String) : Run ListResult :=
  Run.bind (toolCall .gitTagList o.gitTagList) (fun tags =>
    let tagMap := tags_by_snapshot tags
    Run.bind (toolCall (.gitLog (cfg.listLimit * 2)) (o.gitLog (cfg.listLimit * 2)))
      (fun logOutput =>
    Run.bind
      (match collect_snapshots logOutput tagMap with
        | .error e => Run.throw e
        | .ok entries => Run.pure entries)
      (fun entries =>
    let entries := filter_entries entries filt
    let record : AuditRec :=
      { ts := ts, action := "list", actor := "clawbot", status := "ok", error := none }
    Run.bind (auditCall o record) (fun auditPath =>
    Run.pure
      { snapshots := entries.take cfg.listLimit
        auditRecordPath := auditPath
        summary := human_summary record }))))

/-- Model of `TimeMachine.list`. -/
def listOp (o : Oracle) (cfg : Config) (ts filt : String) : Run ListResult :=
  runAudited o ts "list" (listBody o cfg ts filt)

/-- Success payload of `diff`. -/
structure DiffResult where
  versionA : String
  versionB : String
  keyChanges : List String
  summary : String
  diffStat : String
  binaryFiles : List String
  auditRecordPath : String
  summaryText : String
deriving Repr, DecidableEq

/-- The body of `TimeMachine.diff` (inside the `try`). -/
def diffBody (o : Oracle) (ts versionA versionB : String) : Run DiffResult :=
  Run.bind (toolCall (.gitDiffNames versionA versionB) (o.gitDiffNames versionA versionB))
    (fun names =>
    let keyChanges := names.filter
      (fun p => topComponent p = "config" ∨ topComponent p = "scripts" ∨
        topComponent p = "policies")
    Run.bind
      (toolCall (.gitDiffShortstat versionA versionB) (o.gitDiffShortstat versionA versionB))
      (fun shortstat =>
    Run.bind
      (toolCall (.gitDiffNumstat versionA versionB) (o.gitDiffNumstat versionA versionB))
      (fun numstat =>
    let binaryFiles := (numstat.filter (fun l => pyStartsWith l.data "-\t-".data)).map
      (fun l => String.mk (lastPart (pySplitChar '\t' l.data)))
    Run.bind (toolCall (.gitDiffStat versionA versionB) (o.gitDiffStat versionA versionB))
      (fun diffStat =>
    let record : AuditRec :=
      { ts := ts, action := "diff", actor := "clawbot", status := "ok", error := none }
    Run.bind (auditCall o record) (fun auditPath =>
    Run.pure
      { versionA := versionA
        versionB := versionB
        keyChanges := keyChanges
        summary := if shortstat = "" then "No differences." else shortstat
        diffStat := diffStat
        binaryFiles := binaryFiles
        auditRecordPath := auditPath
        summaryText := human_summary record })))))

/-- Model of `TimeMachine.diff`. -/
def diff (o : Oracle) (ts versionA versionB : String) : Run DiffResult :=
  runAudited o ts "diff" (diffBody o ts versionA versionB)

/-- The label applied by a trace effect, if it is a `git tag` call. -/
def effTagName : Effect → Option String
  | .gitTag n => some n
  | _ => none

/-- Effects that mutate the repository or the tracked data. -/
def isRepoMutation : Effect → Bool
  | .gitAddAll => true
  | .gitCommit _ => true
  | .gitTag _ => true
  | .gitCheckout _ => true
  | .dvcAdd _ => true
  | .dvcPush => true
  | .dvcCheckout => true
  | _ => false

/-- The oracle's audit writes all succeed (healthy audit log filesystem). -/
def auditOk (o : Oracle) : Prop :=
  ∀ record : AuditRec, ∃ p, o.auditWrite record = .ok p

/-- Test for `ProtectedPathError`. -/
def Err.isProtectedPath : Err → Bool
  | .protectedPath _ => true
  | _ => false

/-- Test for `DirtyWorkspaceError`. -/
def Err.isDirtyWorkspace : Err → Bool
  | .dirtyWorkspace _ => true
  | _ => false

/-- A computation never fails with an error satisfying `p`. -/
def avoids (p : Err → Bool) {α : Type} (x : Run α) : Prop :=
  ∀ e, x.1 = Except.error e → p e = false

/-- A concrete configuration used to exercise the theorems on concrete
inputs. -/
def cfgTest : Config where
  protectedPaths := ["secrets"]
  riskLevels := [("normal", "Low risk"), ("high", "High risk"), ("critical", "Critical risk")]
  remoteOptional := true
  listLimit := 10
  requiredPaths := []
  healthcheckCmd := none

/-- A concrete oracle on which every external call succeeds; the working
tree has one modified file under the protected directory. -/
def okOracle : Oracle where
  gitStatus := .ok " M secrets/app.txt"
  gitAddAll := .ok ()
  gitCommit := fun _ => .ok "c0ffee"
  gitTag := fun _ => .ok ()
  gitTagList := .ok []
  gitLog := fun _ => .ok ""
  gitCheckout := fun _ => .ok ()
  gitRevParse := fun _ => .ok "c0ffee"
  gitDiffNames := fun _ _ => .ok []
  gitDiffStat := fun _ _ => .ok ""
  gitDiffShortstat := fun _ _ => .ok ""
  gitDiffNumstat := fun _ _ => .ok []
  dvcAvailable := false
  dvcInitialized := false
  dvcAdd := fun _ => .ok ()
  dvcPush := .ok ()
  dvcCheckout := .ok ()
  dvcRemoteList := .ok false
  pathExists := fun _ => true
  healthcheck := .ok ""
  auditWrite := fun _ => .ok "audit-abc.jsonl"

/-- A concrete oracle whose status query raises a `CommandError` and
whose audit writes fail with a filesystem error. -/
def brokenAuditOracle : Oracle :=
  { okOracle with
      gitStatus := .error "boom"
      auditWrite := fun _ => .error "disk full" }

end TMSkill

namespace TMSkill

/-! ## Support lemmas: sorted deduplication -/

theorem sortedDedup_sorted_le (xs : List String) : (sortedDedup xs).Sorted (· ≤ ·) :=
  List.sorted_insertionSort _ _

theorem sortedDedup_nodup (xs : List String) : (sortedDedup xs).Nodup :=
  ((List.perm_insertionSort _ _).nodup_iff).mpr (List.nodup_dedup xs)

theorem mem_sortedDedup {p : String} {xs : List String} :
    p ∈ sortedDedup xs ↔ p ∈ xs :=
  ((List.perm_insertionSort _ _).mem_iff).trans (List.mem_dedup)

/-- C10: the changed-path list computed by `snapshot` from a status output
is strictly sorted (hence duplicate-free), and its members are exactly the
non-empty status lines with the 3-character status column dropped and, for
rename entries, only the new path kept. -/
theorem changed_paths_sorted_unique_members (s : String) :
    (parse_changed_paths s).Sorted (· < ·) ∧
      ∀ p : String, p ∈ parse_changed_paths s ↔
        ∃ l ∈ pySplitlines s.data, ¬l.isEmpty ∧ p = String.mk (statusLineToPath l) := by
  constructor
  · exact (sortedDedup_sorted_le _).lt_of_le (sortedDedup_nodup _)
  · intro p
    rw [parse_changed_paths, mem_sortedDedup, List.mem_map]
    constructor
    · rintro ⟨l, hl, rfl⟩
      rw [List.mem_filter] at hl
      exact ⟨l, hl.1, by simpa using hl.2, rfl⟩
    · rintro ⟨l, hl, hne, rfl⟩
      exact ⟨l, List.mem_filter.mpr ⟨hl, by simpa using hne⟩, rfl⟩

/-! ## Support lemmas: tag grouping -/

theorem dictGet_dictAppend (m : List (String × List String)) (k v k' : String) :
    dictGet (dictAppend m k v) k' =
      if k' = k then dictGet m k ++ [v] else dictGet m k' := by
  induction m with
  | nil =>
    by_cases h : k' = k
    · subst h; simp [dictAppend, dictGet]
    · have h' : ¬k = k' := fun hh => h hh.symm
      simp [dictAppend, dictGet, h, h']
  | cons kv rest ih =>
    obtain ⟨k0, vs⟩ := kv
    by_cases h0 : k0 = k
    · subst h0
      by_cases h : k' = k0
      · subst h; simp [dictAppend, dictGet]
      · have h' : ¬k0 = k' := fun hh => h hh.symm
        simp [dictAppend, dictGet, h, h']
    · by_cases h : k0 = k'
      · have hk : ¬k' = k := fun hh => h0 (h.trans hh)
        simp only [dictAppend, if_neg h0, dictGet, if_pos h, if_neg hk]
      · simp only [dictAppend, if_neg h0, dictGet, if_neg h]
        exact ih

theorem mem_dictGet_dictAppend_of_mem {t : String} {m : List (String × List String)}
    {k' : String} (h : t ∈ dictGet m k') (k v : String) :
    t ∈ dictGet (dictAppend m k v) k' := by
  rw [dictGet_dictAppend]
  by_cases hk : k' = k
  · subst hk; simp [h]
  · simp [hk, h]

theorem dictAppend_forall {Q : String → String → Prop}
    {m : List (String × List String)} {k v : String}
    (hm : ∀ kv ∈ m, ∀ t ∈ kv.2, Q kv.1 t) (hv : Q k v) :
    ∀ kv ∈ dictAppend m k v, ∀ t ∈ kv.2, Q kv.1 t := by
  induction m with
  | nil =>
    intro kv hkv t ht
    simp only [dictAppend, List.mem_singleton] at hkv
    subst hkv
    simp only [List.mem_singleton] at ht
    subst ht
    exact hv
  | cons kv0 rest ih =>
    intro kv hkv t ht
    obtain ⟨k0, vs⟩ := kv0
    by_cases h0 : k0 = k
    · simp only [dictAppend, if_pos h0] at hkv
      rcases List.mem_cons.mp hkv with heq | hmem
      · subst heq
        rcases List.mem_append.mp ht with h1 | h2
        · exact hm (k0, vs) (List.mem_cons_self _ _) t h1
        · have ht' : t = v := List.mem_singleton.mp h2
          subst ht'
          exact h0 ▸ hv
      · exact hm kv (List.mem_cons_of_mem _ hmem) t ht
    · simp only [dictAppend, if_neg h0] at hkv
      rcases List.mem_cons.mp hkv with heq | hmem
      · subst heq
        exact hm (k0, vs) (List.mem_cons_self _ _) t ht
      · exact ih (fun kv' hkv' => hm kv' (List.mem_cons_of_mem _ hkv')) kv hmem t ht

theorem tags_foldl_mem {t : String} :
    ∀ (tags : List String) (m : List (String × List String)),
      (t ∈ dictGet m (afterFirstSlash t) ∨ (t ∈ tags ∧ t.data.contains '/' = true)) →
      t ∈ dictGet
        (tags.foldl
          (fun m tag =>
            if tag.data.contains '/' then dictAppend m (afterFirstSlash tag) tag else m)
          m)
        (afterFirstSlash t)
  | [], m, h => by
    rcases h with h | ⟨h, _⟩
    · simpa using h
    · simp at h
  | tag :: rest, m, h => by
    simp only [List.foldl_cons]
    rcases h with h | ⟨hmem, hslash⟩
    · apply tags_foldl_mem rest
      left
      by_cases hs : tag.data.contains '/' = true
      · rw [if_pos hs]
        exact mem_dictGet_dictAppend_of_mem h (afterFirstSlash tag) tag
      · rwa [if_neg hs]
    · rcases List.mem_cons.mp hmem with rfl | hmem'
      · apply tags_foldl_mem rest
        left
        rw [if_pos hslash, dictGet_dictAppend, if_pos rfl]
        simp
      · exact tags_foldl_mem rest _ (Or.inr ⟨hmem', hslash⟩)

theorem tags_foldl_sound {tags0 : List String} :
    ∀ (tags : List String) (m : List (String × List String)),
      (∀ x ∈ tags, x ∈ tags0) →
      (∀ kv ∈ m, ∀ t ∈ kv.2,
        t ∈ tags0 ∧ t.data.contains '/' = true ∧ afterFirstSlash t = kv.1) →
      ∀ kv ∈ tags.foldl
          (fun m tag =>
            if tag.data.contains '/' then dictAppend m (afterFirstSlash tag) tag else m)
          m,
        ∀ t ∈ kv.2,
          t ∈ tags0 ∧ t.data.contains '/' = true ∧ afterFirstSlash t = kv.1
  | [], m, _, hm => by simpa using hm
  | tag :: rest, m, hsub, hm => by
    simp only [List.foldl_cons]
    apply tags_foldl_sound rest _ (fun x hx => hsub x (List.mem_cons_of_mem _ hx))
    by_cases hs : tag.data.contains '/' = true
    · rw [if_pos hs]
      exact dictAppend_forall
        (Q := fun key t => t ∈ tags0 ∧ t.data.contains '/' = true ∧ afterFirstSlash t = key)
        hm ⟨hsub tag (List.mem_cons_self _ _), hs, rfl⟩
    · rwa [if_neg hs]

/-- C2 (amended): every tag containing a slash is grouped under the
substring after its first slash, tags without a slash are ignored, and
everything in a group is a slash-containing input tag whose
after-first-slash suffix is the group key. -/
theorem tags_grouped_by_suffix_after_first_slash (tags : List String) :
    (∀ t ∈ tags, t.data.contains '/' = true →
      t ∈ dictGet (tags_by_snapshot tags) (afterFirstSlash t)) ∧
    ∀ kv ∈ tags_by_snapshot tags, ∀ t ∈ kv.2,
      t ∈ tags ∧ t.data.contains '/' = true ∧ afterFirstSlash t = kv.1 := by
  constructor
  · intro t ht hs
    exact tags_foldl_mem tags [] (Or.inr ⟨ht, hs⟩)
  · exact tags_foldl_sound tags [] (fun x hx => hx) (by simp)

/-- C2 counterexample: a tag with two slashes is grouped under the suffix
after the first slash, not under the substring after the last slash. -/
theorem tags_last_slash_grouping_fails :
    dictGet (tags_by_snapshot ["x/y/z"]) "z" = [] ∧
      dictGet (tags_by_snapshot ["x/y/z"]) "y/z" = ["x/y/z"] := by
  constructor <;> rfl

/-! ## Inversion lemmas for the effect monad -/

theorem pair_ok_absurd {α : Type} {e : Err} {tr : List Effect} {r : α} {t : List Effect}
    (h : ((Except.error e : Except Err α), tr) = (.ok r, t)) : False :=
  absurd (congrArg Prod.fst h) (by simp)

theorem runAudited_ok {α : Type} {o : Oracle} {ts action : String} {body : Run α}
    {r : α} {t : List Effect} (h : runAudited o ts action body = (.ok r, t)) :
    body = (.ok r, t) := by
  rcases body with ⟨res, tr⟩
  cases res with
  | ok a => exact h
  | error e =>
    exfalso
    unfold runAudited at h
    rcases hw : o.auditWrite (errRecord ts action e) with m | p <;>
      simp only [hw] at h <;> exact pair_ok_absurd h

theorem bind_ok {α β : Type} {x : Run α} {f : α → Run β} {r : β} {t : List Effect}
    (h : Run.bind x f = (.ok r, t)) :
    ∃ a t1 t2, x = (.ok a, t1) ∧ f a = (.ok r, t2) ∧ t = t1 ++ t2 := by
  rcases x with ⟨res, tr⟩
  cases res with
  | ok a =>
    rcases hf : f a with ⟨fres, ftr⟩
    unfold Run.bind at h
    simp only [hf] at h
    obtain ⟨h1, h2⟩ := Prod.mk.injEq .. ▸ h
    exact ⟨a, tr, ftr, rfl, by rw [hf, h1], h2.symm⟩
  | error e => exact (pair_ok_absurd h).elim

theorem toolCall_ok {α : Type} {eff : Effect} {res : Except String α}
    {a : α} {t : List Effect} (h : toolCall eff res = (.ok a, t)) :
    res = .ok a ∧ t = [eff] := by
  cases res with
  | ok b =>
    simp only [toolCall] at h
    obtain ⟨h1, h2⟩ := Prod.mk.injEq .. ▸ h
    cases h1
    exact ⟨rfl, h2.symm⟩
  | error m => exact (pair_ok_absurd h).elim

theorem auditCall_ok {o : Oracle} {record : AuditRec} {p : String} {t : List Effect}
    (h : auditCall o record = (.ok p, t)) : t = [.auditWrite record] := by
  unfold auditCall at h
  rcases hw : o.auditWrite record with m | q <;> rw [hw] at h <;>
    simpa using (Prod.mk.injEq .. ▸ h).2.symm

theorem pure_ok {α : Type} {a b : α} {t : List Effect}
    (h : Run.pure a = (Except.ok b, t)) : a = b ∧ t = [] := by
  unfold Run.pure at h
  obtain ⟨h1, h2⟩ := Prod.mk.injEq .. ▸ h
  exact ⟨by simpa using h1, h2.symm⟩

/-! ## C9: diff key changes -/

/-- C9: when `diff` succeeds, its `key_changes` are exactly the changed
path names, in order, whose top-level component is `config`, `scripts`
or `policies`. -/
theorem diff_key_changes_classification (o : Oracle) (ts a b : String)
    (names : List String) (r : DiffResult) (t : List Effect)
    (hnames : o.gitDiffNames a b = .ok names)
    (h : diff o ts a b = (.ok r, t)) :
    r.keyChanges = names.filter
      (fun p => (["config", "scripts", "policies"] : List String).contains (topComponent p)) := by
  have hbody := runAudited_ok h
  unfold diffBody at hbody
  obtain ⟨names', t1, t2, hx, hf, rfl⟩ := bind_ok hbody
  obtain ⟨hres, rfl⟩ := toolCall_ok hx
  rw [hnames] at hres
  cases hres
  obtain ⟨ss, u1, u2, hx2, hf2, rfl⟩ := bind_ok hf
  obtain ⟨ns, v1, v2, hx3, hf3, rfl⟩ := bind_ok hf2
  obtain ⟨ds, w1, w2, hx4, hf4, rfl⟩ := bind_ok hf3
  obtain ⟨p, y1, y2, hx5, hf5, rfl⟩ := bind_ok hf4
  obtain ⟨hr, -⟩ := pure_ok hf5
  have hkey : r.keyChanges = names.filter
      (fun p => topComponent p = "config" ∨ topComponent p = "scripts" ∨
        topComponent p = "policies") := by
    rw [← hr]
  rw [hkey]
  apply List.filter_congr
  intro p _
  simp [List.contains, eq_comm]

/-! ## Trace lemmas -/

theorem toolCall_snd {α : Type} (eff : Effect) (res : Except String α) :
    (toolCall eff res).2 = [eff] := by
  cases res <;> rfl

theorem dvcAddRoot_snd (o : Oracle) (ps : List String) (root : String) :
    (dvcAddRoot o ps root).2 = [] ∨ (dvcAddRoot o ps root).2 = [.dvcAdd root] := by
  unfold dvcAddRoot
  split
  · split
    · right; exact toolCall_snd _ _
    · left; rfl
  · left; rfl

theorem dvc_add_paths_tagFree (o : Oracle) (ps : List String) :
    ((dvc_add_paths o ps).2).filterMap effTagName = [] := by
  unfold dvc_add_paths Run.bind
  rcases hm : dvcAddRoot o ps "models" with ⟨res, tr⟩
  have htr : tr = [] ∨ tr = [.dvcAdd "models"] := by
    have := dvcAddRoot_snd o ps "models"
    rw [hm] at this
    exact this
  cases res with
  | ok a =>
    rcases hd : dvcAddRoot o ps "data_snapshots" with ⟨res2, tr2⟩
    have htr2 : tr2 = [] ∨ tr2 = [.dvcAdd "data_snapshots"] := by
      have := dvcAddRoot_snd o ps "data_snapshots"
      rw [hd] at this
      exact this
    simp only [List.filterMap_append]
    rcases htr with rfl | rfl <;> rcases htr2 with rfl | rfl <;> rfl
  | error e =>
    rcases htr with rfl | rfl <;> rfl

/-! ## Error-avoidance lemmas -/

theorem avoids_pure {α : Type} {p : Err → Bool} (a : α) : avoids p (Run.pure a) := by
  intro e he
  exact absurd he (by simp [Run.pure])

theorem avoids_throw {α : Type} {p : Err → Bool} {e : Err} (h : p e = false) :
    avoids p (Run.throw e : Run α) := by
  intro e' he'
  have he2 : e = e' := by simpa [Run.throw] using he'
  exact he2 ▸ h

theorem avoids_toolCall {α : Type} {p : Err → Bool} (eff : Effect) (res : Except String α)
    (hp : ∀ m, p (.command m) = false) : avoids p (toolCall eff res) := by
  intro e he
  cases res with
  | ok a => exact absurd he (by simp [toolCall])
  | error m =>
    have hcmd : Err.command m = e := by simpa [toolCall] using he
    rw [← hcmd]
    exact hp m

theorem avoids_auditCall {p : Err → Bool} (o : Oracle) (record : AuditRec)
    (hp : ∀ m, p (.other m) = false) : avoids p (auditCall o record) := by
  intro e he
  unfold auditCall at he
  rcases hw : o.auditWrite record with m | q <;> simp only [hw] at he
  · have hoth : Err.other m = e := by simpa using he
    rw [← hoth]
    exact hp m
  · exact absurd he (by simp)

theorem avoids_bind {α β : Type} {p : Err → Bool} {x : Run α} {f : α → Run β}
    (hx : avoids p x) (hf : ∀ a, avoids p (f a)) : avoids p (Run.bind x f) := by
  intro e he
  rcases x with ⟨res, tr⟩
  cases res with
  | ok a =>
    rcases hfa : f a with ⟨fres, ftr⟩
    unfold Run.bind at he
    simp only [hfa] at he
    exact hf a e (by rw [hfa]; exact he)
  | error e2 =>
    have he2 : e2 = e := by simpa [Run.bind] using he
    exact he2 ▸ hx e2 rfl

theorem avoids_runAudited {α : Type} {p : Err → Bool} {o : Oracle} {ts action : String}
    {body : Run α} (hb : avoids p body) (hother : ∀ m, p (.other m) = false) :
    avoids p (runAudited o ts action body) := by
  intro e he
  rcases body with ⟨res, tr⟩
  cases res with
  | ok a => exact absurd he (by simp [runAudited])
  | error e2 =>
    unfold runAudited at he
    rcases hw : o.auditWrite (errRecord ts action e2) with m | q <;> simp only [hw] at he
    · have hoth : Err.other m = e := by simpa using he
      rw [← hoth]
      exact hother m
    · have he2 : e2 = e := by simpa using he
      exact he2 ▸ hb e2 rfl

theorem avoids_dvcAddRoot {p : Err → Bool} (o : Oracle) (ps : List String) (root : String)
    (hp : ∀ m, p (.command m) = false) : avoids p (dvcAddRoot o ps root) := by
  unfold dvcAddRoot
  split
  · split
    · exact avoids_toolCall _ _ hp
    · exact avoids_pure _
  · exact avoids_pure _

theorem avoids_dvc_add_paths {p : Err → Bool} (o : Oracle) (ps : List String)
    (hp : ∀ m, p (.command m) = false) : avoids p (dvc_add_paths o ps) :=
  avoids_bind (avoids_dvcAddRoot o ps _ hp) (fun _ => avoids_dvcAddRoot o ps _ hp)

/-! ## C5: labels by level -/

/-- C5: a successful snapshot applies exactly the labels
`pre-change/id` (always) and additionally `stable/id` for a critical
snapshot, in that order — both in the returned payload and as issued
`git tag` calls. -/
theorem snapshot_labels_by_level (o : Oracle) (cfg : Config) (sid ts : String)
    (reason : Option String) (level : String) (r : SnapResult) (t : List Effect)
    (h : snapshot o cfg sid ts reason level = (.ok r, t)) :
    (level = "critical" →
      r.tags = ["pre-change/" ++ sid, "stable/" ++ sid] ∧
      t.filterMap effTagName = ["pre-change/" ++ sid, "stable/" ++ sid]) ∧
    (level ≠ "critical" →
      r.tags = ["pre-change/" ++ sid] ∧
      t.filterMap effTagName = ["pre-change/" ++ sid]) := by
  have hbody := runAudited_ok h
  unfold snapshotBody at hbody
  obtain ⟨statusOutput, t1, t2, hx1, hf1, rfl⟩ := bind_ok hbody
  obtain ⟨-, rfl⟩ := toolCall_ok hx1
  split at hf1
  · exact (pair_ok_absurd hf1).elim
  obtain ⟨dvcStatus1, u1, u2, hx2, hf2, rfl⟩ := bind_ok hf1
  obtain ⟨uAdd, v1, v2, hx3, hf3, rfl⟩ := bind_ok hf2
  obtain ⟨-, rfl⟩ := toolCall_ok hx3
  obtain ⟨gitCommit, w1, w2, hx4, hf4, rfl⟩ := bind_ok hf3
  obtain ⟨-, rfl⟩ := toolCall_ok hx4
  obtain ⟨uTag, x1, x2, hx5, hf5, rfl⟩ := bind_ok hf4
  obtain ⟨-, rfl⟩ := toolCall_ok hx5
  obtain ⟨tags, y1, y2, hx6, hf6, rfl⟩ := bind_ok hf5
  obtain ⟨dvcStatus, z1, z2, hx7, hf7, rfl⟩ := bind_ok hf6
  obtain ⟨auditPath, a1, a2, hx8, hf8, rfl⟩ := bind_ok hf7
  obtain ⟨hr, rfl⟩ := pure_ok hf8
  have hu1 : u1.filterMap effTagName = [] := by
    split at hx2
    · obtain ⟨uDvc, b1, b2, hdvc, hp, rfl⟩ := bind_ok hx2
      obtain ⟨-, rfl⟩ := pure_ok hp
      have hb1 : b1 = (dvc_add_paths o (parse_changed_paths statusOutput)).2 :=
        (congrArg Prod.snd hdvc).symm
      simp [List.filterMap_append, hb1, dvc_add_paths_tagFree]
    · obtain ⟨-, rfl⟩ := pure_ok hx2
      rfl
  have hz1 : z1.filterMap effTagName = [] := by
    split at hx7
    · split at hx7
      · obtain ⟨hasRemote, c1, c2, hrl, hif, rfl⟩ := bind_ok hx7
        obtain ⟨-, rfl⟩ := toolCall_ok hrl
        simp only [List.filterMap_append]
        split at hif
        · obtain ⟨uPush, d1, d2, hpush, hp, rfl⟩ := bind_ok hif
          obtain ⟨-, rfl⟩ := toolCall_ok hpush
          obtain ⟨-, rfl⟩ := pure_ok hp
          rfl
        · obtain ⟨-, rfl⟩ := pure_ok hif
          rfl
      · obtain ⟨uPush2, d1, d2, hpush, hp, rfl⟩ := bind_ok hx7
        obtain ⟨-, rfl⟩ := toolCall_ok hpush
        obtain ⟨-, rfl⟩ := pure_ok hp
        rfl
    · obtain ⟨-, rfl⟩ := pure_ok hx7
      rfl
  have ha1 : a1 = [.auditWrite
      { ts := ts, action := "snapshot", actor := "clawbot", status := "ok",
        error := none }] := auditCall_ok hx8
  have hrtags : r.tags = tags := by rw [← hr]
  split at hx6
  · rename_i hcrit
    obtain ⟨uTag2, e1, e2, htag2, hp, rfl⟩ := bind_ok hx6
    obtain ⟨-, rfl⟩ := toolCall_ok htag2
    obtain ⟨htags, rfl⟩ := pure_ok hp
    constructor
    · intro _
      refine ⟨by rw [hrtags, ← htags], ?_⟩
      simp [List.filterMap_append, hu1, hz1, ha1, effTagName]
    · intro hne
      exact absurd hcrit hne
  · rename_i hcrit
    obtain ⟨htags, rfl⟩ := pure_ok hx6
    constructor
    · intro hc
      exact absurd hc hcrit
    · intro _
      refine ⟨by rw [hrtags, ← htags], ?_⟩
      simp [List.filterMap_append, hu1, hz1, ha1, effTagName]

/-! ## C3: protected-path gate -/

/-- C3: with a healthy audit log, if some changed path has its top-level
component among the protected paths and no reason was supplied, snapshot
fails with `ProtectedPathError` and the only calls issued are the status
query and the audit write — no add, commit, tag or data-tracking call
happens; with a non-empty reason the gate never fires. -/
theorem snapshot_protected_path_gate (o : Oracle) (cfg : Config) (sid ts level : String)
    (statusOutput : String)
    (hs : o.gitStatus = .ok statusOutput)
    (haudit : auditOk o) :
    (protected_paths_touched cfg.protectedPaths (parse_changed_paths statusOutput) ≠ [] →
      (∃ m record, record.status = "error" ∧
        snapshot o cfg sid ts none level =
          (.error (.protectedPath m), [Effect.gitStatus, .auditWrite record])) ∧
      ∀ e ∈ (snapshot o cfg sid ts none level).2, isRepoMutation e = false) ∧
    ∀ reason : String, reason ≠ "" →
      ∀ m, (snapshot o cfg sid ts (some reason) level).1 ≠ .error (.protectedPath m) := by
  constructor
  · intro hhits
    have hgate : ¬(protected_paths_touched cfg.protectedPaths
        (parse_changed_paths statusOutput)).isEmpty = true ∧
        reasonFalsy (none : Option String) = true := ⟨by simpa using hhits, rfl⟩
    obtain ⟨pth, hw⟩ := haudit (errRecord ts "snapshot"
      (.protectedPath ("Protected paths modified without reason: " ++
        joinCommaSpace (sortedDedup (protected_paths_touched cfg.protectedPaths
          (parse_changed_paths statusOutput))))))
    have hsnap : snapshot o cfg sid ts none level =
        (.error (.protectedPath ("Protected paths modified without reason: " ++
          joinCommaSpace (sortedDedup (protected_paths_touched cfg.protectedPaths
            (parse_changed_paths statusOutput))))),
         [Effect.gitStatus, .auditWrite
            { ts := ts, action := "snapshot", actor := "clawbot", status := "error",
              error := some ("Protected paths modified without reason: " ++
                joinCommaSpace (sortedDedup (protected_paths_touched cfg.protectedPaths
                  (parse_changed_paths statusOutput)))) }]) := by
      unfold snapshot runAudited snapshotBody
      rw [hs]
      simp only [toolCall, Run.bind, if_pos hgate, Run.throw, Err.message]
      rw [hw]
      rfl
    refine ⟨⟨_, _, rfl, hsnap⟩, ?_⟩
    rw [hsnap]
    intro e he
    rcases List.mem_cons.mp he with rfl | he2
    · rfl
    · rcases List.mem_singleton.mp he2 with rfl
      rfl
  · intro reason hne m hcontra
    have hrf : reasonFalsy (some reason) = false := by
      simpa [reasonFalsy] using hne
    have hbody : avoids Err.isProtectedPath (snapshotBody o cfg sid ts (some reason) level) := by
      unfold snapshotBody
      apply avoids_bind (avoids_toolCall _ _ (fun m => rfl))
      intro s
      rw [if_neg (by simp [hrf])]
      apply avoids_bind
      · split
        · exact avoids_bind (avoids_dvc_add_paths _ _ (fun m => rfl))
            (fun _ => avoids_pure _)
        · exact avoids_pure _
      intro d1
      apply avoids_bind (avoids_toolCall _ _ (fun m => rfl))
      intro u1
      apply avoids_bind (avoids_toolCall _ _ (fun m => rfl))
      intro c1
      apply avoids_bind (avoids_toolCall _ _ (fun m => rfl))
      intro u2
      apply avoids_bind
      · split
        · exact avoids_bind (avoids_toolCall _ _ (fun m => rfl)) (fun _ => avoids_pure _)
        · exact avoids_pure _
      intro tags
      apply avoids_bind
      · split
        · split
          · apply avoids_bind (avoids_toolCall _ _ (fun m => rfl))
            intro hasRemote
            split
            · exact avoids_bind (avoids_toolCall _ _ (fun m => rfl)) (fun _ => avoids_pure _)
            · exact avoids_pure _
          · exact avoids_bind (avoids_toolCall _ _ (fun m => rfl)) (fun _ => avoids_pure _)
        · exact avoids_pure _
      intro d2
      exact avoids_bind (avoids_auditCall _ _ (fun m => rfl)) (fun _ => avoids_pure _)
    have havoid : avoids Err.isProtectedPath (snapshot o cfg sid ts (some reason) level) :=
      avoids_runAudited hbody (fun m => rfl)
    have := havoid _ hcontra
    simp [Err.isProtectedPath] at this

/-! ## C4: dirty-workspace gate -/

/-- C4: with a healthy audit log, if the status output is non-empty and
`force` is false, restore fails with `DirtyWorkspaceError` and the only
calls issued are the status query and the audit write — no checkout, data
checkout or verification happens; with `force` the gate never fires. -/
theorem restore_dirty_workspace_gate (o : Oracle) (cfg : Config) (ts version : String)
    (verify : Bool) (statusOutput : String)
    (hs : o.gitStatus = .ok statusOutput)
    (haudit : auditOk o) :
    (statusOutput ≠ "" →
      (∃ record, record.status = "error" ∧
        restore o cfg ts version verify false =
          (.error (.dirtyWorkspace "Workspace is dirty. Run snapshot or set force=True."),
           [Effect.gitStatus, .auditWrite record])) ∧
      ∀ e ∈ (restore o cfg ts version verify false).2,
        isRepoMutation e = false ∧ e ≠ .dvcCheckout ∧ e ≠ .healthcheck) ∧
    ∀ m, (restore o cfg ts version verify true).1 ≠ .error (.dirtyWorkspace m) := by
  constructor
  · intro hnonempty
    have hgate : statusOutput ≠ "" ∧ ¬(false : Bool) = true := ⟨hnonempty, by simp⟩
    obtain ⟨pth, hw⟩ := haudit (errRecord ts "restore"
      (.dirtyWorkspace "Workspace is dirty. Run snapshot or set force=True."))
    have hres : restore o cfg ts version verify false =
        (.error (.dirtyWorkspace "Workspace is dirty. Run snapshot or set force=True."),
         [Effect.gitStatus, .auditWrite
            { ts := ts, action := "restore", actor := "clawbot", status := "error",
              error := some "Workspace is dirty. Run snapshot or set force=True." }]) := by
      unfold restore runAudited restoreBody
      rw [hs]
      simp only [toolCall, Run.bind, if_pos hgate, Run.throw, Err.message]
      rw [hw]
      rfl
    refine ⟨⟨_, rfl, hres⟩, ?_⟩
    rw [hres]
    intro e he
    rcases List.mem_cons.mp he with rfl | he2
    · exact ⟨rfl, by simp, by simp⟩
    · rcases List.mem_singleton.mp he2 with rfl
      exact ⟨rfl, by simp, by simp⟩
  · intro m hcontra
    have hbody : avoids Err.isDirtyWorkspace (restoreBody o cfg ts version verify true) := by
      unfold restoreBody
      apply avoids_bind (avoids_toolCall _ _ (fun m => rfl))
      intro s
      rw [if_neg (by simp)]
      apply avoids_bind (avoids_toolCall _ _ (fun m => rfl))
      intro u1
      apply avoids_bind
      · split
        · exact avoids_bind (avoids_toolCall _ _ (fun m => rfl)) (fun _ => avoids_pure _)
        · exact avoids_pure _
      intro d1
      apply avoids_bind
      · split
        · unfold verifierVerify
          split
          · exact avoids_throw rfl
          · split
            · exact avoids_pure _
            · split
              · exact avoids_pure _
              · exact avoids_bind (avoids_toolCall _ _ (fun m => rfl))
                  (fun _ => avoids_pure _)
        · exact avoids_pure _
      intro v1
      apply avoids_bind (avoids_toolCall _ _ (fun m => rfl))
      intro head
      exact avoids_bind (avoids_auditCall _ _ (fun m => rfl)) (fun _ => avoids_pure _)
    have havoid : avoids Err.isDirtyWorkspace (restore o cfg ts version verify true) :=
      avoids_runAudited hbody (fun m => rfl)
    have := havoid _ hcontra
    simp [Err.isDirtyWorkspace] at this

/-! ## C7: failure auditing -/

theorem runAudited_error_eq {α : Type} (o : Oracle) (ts action : String) (e : Err)
    (tr : List Effect) (p : String)
    (hw : o.auditWrite (errRecord ts action e) = .ok p) :
    runAudited o ts action ((Except.error e : Except Err α), tr) =
      (.error e, tr ++ [.auditWrite (errRecord ts action e)]) := by
  unfold runAudited
  simp only [hw]

theorem runAudited_error {α : Type} {o : Oracle} {ts action : String} {body : Run α}
    (haudit : auditOk o) {e : Err} (h : body.1 = .error e) :
    (runAudited o ts action body).1 = .error e ∧
    ∃ record, Effect.auditWrite record ∈ (runAudited o ts action body).2 ∧
      record.status = "error" ∧ record.error = some e.message := by
  rcases body with ⟨res, tr⟩
  cases res with
  | ok a => exact absurd h (by simp)
  | error e2 =>
    have he : e2 = e := by simpa using h
    subst he
    obtain ⟨p, hw⟩ := haudit (errRecord ts action e2)
    rw [runAudited_error_eq o ts action e2 tr p hw]
    exact ⟨rfl, errRecord ts action e2,
      List.mem_append_right _ (List.mem_singleton.mpr rfl), rfl, rfl⟩

/-- C7 (amended): with a healthy audit log, for each of the four
operations, whenever the operation's body raises an exception, the
operation records a status=error audit write carrying exactly that
exception's message and then propagates exactly the original exception;
if the error-path audit write itself fails, its failure would propagate
instead (see the counterexample), which the amendment excludes. -/
theorem failure_audited_then_reraised (o : Oracle) (cfg : Config)
    (sid ts version va vb filt : String) (reason : Option String) (level : String)
    (verify force : Bool) (haudit : auditOk o) :
    (∀ e, (snapshotBody o cfg sid ts reason level).1 = .error e →
      (snapshot o cfg sid ts reason level).1 = .error e ∧
      ∃ record, Effect.auditWrite record ∈ (snapshot o cfg sid ts reason level).2 ∧
        record.status = "error" ∧ record.error = some e.message) ∧
    (∀ e, (restoreBody o cfg ts version verify force).1 = .error e →
      (restore o cfg ts version verify force).1 = .error e ∧
      ∃ record, Effect.auditWrite record ∈ (restore o cfg ts version verify force).2 ∧
        record.status = "error" ∧ record.error = some e.message) ∧
    (∀ e, (listBody o cfg ts filt).1 = .error e →
      (listOp o cfg ts filt).1 = .error e ∧
      ∃ record, Effect.auditWrite record ∈ (listOp o cfg ts filt).2 ∧
        record.status = "error" ∧ record.error = some e.message) ∧
    (∀ e, (diffBody o ts va vb).1 = .error e →
      (diff o ts va vb).1 = .error e ∧
      ∃ record, Effect.auditWrite record ∈ (diff o ts va vb).2 ∧
        record.status = "error" ∧ record.error = some e.message) :=
  ⟨fun _ h => runAudited_error haudit h,
   fun _ h => runAudited_error haudit h,
   fun _ h => runAudited_error haudit h,
   fun _ h => runAudited_error haudit h⟩

/-- C7 counterexample: a failing step does not always propagate unchanged
with its audit record written — when the error-path audit write itself
fails, the audit failure propagates in place of the original
`CommandError`. -/
theorem failure_replaced_when_audit_write_fails :
    brokenAuditOracle.gitStatus = .error "boom" ∧
    (snapshot brokenAuditOracle cfgTest "20250101-000000-ab12" "ts" none "normal").1 =
      .error (.other "disk full") := by
  constructor <;> rfl

/-! ## Witnesses on concrete inputs -/

/-- Witness for C9 on a concrete oracle. -/
theorem diff_key_changes_classification_witness :
    okOracle.gitDiffNames "a" "b" = .ok [] ∧
    diff okOracle "ts" "a" "b" =
      (.ok { versionA := "a", versionB := "b", keyChanges := [],
             summary := "No differences.", diffStat := "", binaryFiles := [],
             auditRecordPath := "audit-abc.jsonl",
             summaryText := "[ts] diff status=ok actor=clawbot" },
       [Effect.gitDiffNames "a" "b", .gitDiffShortstat "a" "b", .gitDiffNumstat "a" "b",
        .gitDiffStat "a" "b",
        .auditWrite { ts := "ts", action := "diff", actor := "clawbot", status := "ok",
                      error := none }]) ∧
    ({ versionA := "a", versionB := "b", keyChanges := [],
       summary := "No differences.", diffStat := "", binaryFiles := [],
       auditRecordPath := "audit-abc.jsonl",
       summaryText := "[ts] diff status=ok actor=clawbot" : DiffResult}).keyChanges =
      ([] : List String).filter
        (fun p => (["config", "scripts", "policies"] : List String).contains (topComponent p)) :=
  ⟨rfl, rfl,
   diff_key_changes_classification okOracle "ts" "a" "b" [] _ _ rfl rfl⟩

/-- Witness for C5 on a concrete oracle: one critical snapshot. -/
theorem snapshot_labels_by_level_witness :
    snapshot okOracle cfgTest "20250101-000000-ab12" "ts" (some "r") "critical" =
      (.ok { snapshotId := "20250101-000000-ab12", gitCommit := "c0ffee",
             tags := ["pre-change/20250101-000000-ab12", "stable/20250101-000000-ab12"],
             changedFilesSummary := ["secrets/app.txt"], dvcStatus := "skipped",
             auditRecordPath := "audit-abc.jsonl",
             summary := "[ts] snapshot status=ok actor=clawbot" },
       [Effect.gitStatus, .gitAddAll,
        .gitCommit ("TimeMachine snapshot 20250101-000000-ab12 [critical]\n\n\x7b\"reason\": \"r\", \"changed_paths\": [\"secrets/app.txt\"], \"risk\": \"Critical risk\"\x7d"),
        .gitTag "pre-change/20250101-000000-ab12", .gitTag "stable/20250101-000000-ab12",
        .auditWrite { ts := "ts", action := "snapshot", actor := "clawbot", status := "ok",
                      error := none }]) ∧
    ("critical" = "critical" →
      ({ snapshotId := "20250101-000000-ab12", gitCommit := "c0ffee",
         tags := ["pre-change/20250101-000000-ab12", "stable/20250101-000000-ab12"],
         changedFilesSummary := ["secrets/app.txt"], dvcStatus := "skipped",
         auditRecordPath := "audit-abc.jsonl",
         summary := "[ts] snapshot status=ok actor=clawbot" : SnapResult}).tags =
        ["pre-change/" ++ "20250101-000000-ab12", "stable/" ++ "20250101-000000-ab12"] ∧
      List.filterMap effTagName
        [Effect.gitStatus, .gitAddAll,
         .gitCommit ("TimeMachine snapshot 20250101-000000-ab12 [critical]\n\n\x7b\"reason\": \"r\", \"changed_paths\": [\"secrets/app.txt\"], \"risk\": \"Critical risk\"\x7d"),
         .gitTag "pre-change/20250101-000000-ab12", .gitTag "stable/20250101-000000-ab12",
         .auditWrite { ts := "ts", action := "snapshot", actor := "clawbot", status := "ok",
                       error := none }] =
        ["pre-change/" ++ "20250101-000000-ab12", "stable/" ++ "20250101-000000-ab12"]) :=
  ⟨by decide,
   (snapshot_labels_by_level okOracle cfgTest "20250101-000000-ab12" "ts" (some "r")
     "critical" _ _ (by decide)).1⟩

/-- Witness for C3 on a concrete oracle with a protected path modified. -/
theorem snapshot_protected_path_gate_witness :
    okOracle.gitStatus = Except.ok " M secrets/app.txt" ∧ auditOk okOracle ∧
    ((protected_paths_touched cfgTest.protectedPaths
        (parse_changed_paths " M secrets/app.txt") ≠ [] →
      (∃ m record, record.status = "error" ∧
        snapshot okOracle cfgTest "20250101-000000-ab12" "ts" none "normal" =
          (.error (.protectedPath m), [Effect.gitStatus, .auditWrite record])) ∧
      ∀ e ∈ (snapshot okOracle cfgTest "20250101-000000-ab12" "ts" none "normal").2,
        isRepoMutation e = false) ∧
    ∀ reason : String, reason ≠ "" →
      ∀ m, (snapshot okOracle cfgTest "20250101-000000-ab12" "ts" (some reason) "normal").1 ≠
        .error (.protectedPath m)) :=
  ⟨rfl, fun _ => ⟨"audit-abc.jsonl", rfl⟩,
   snapshot_protected_path_gate okOracle cfgTest "20250101-000000-ab12" "ts" "normal"
     " M secrets/app.txt" rfl (fun _ => ⟨"audit-abc.jsonl", rfl⟩)⟩

/-- Witness for C4 on a concrete oracle with a dirty working tree. -/
theorem restore_dirty_workspace_gate_witness :
    okOracle.gitStatus = Except.ok " M secrets/app.txt" ∧ auditOk okOracle ∧
    ((" M secrets/app.txt" ≠ "" →
      (∃ record, record.status = "error" ∧
        restore okOracle cfgTest "ts" "pre-change/x" true false =
          (.error (.dirtyWorkspace "Workspace is dirty. Run snapshot or set force=True."),
           [Effect.gitStatus, .auditWrite record])) ∧
      ∀ e ∈ (restore okOracle cfgTest "ts" "pre-change/x" true false).2,
        isRepoMutation e = false ∧ e ≠ .dvcCheckout ∧ e ≠ .healthcheck) ∧
    ∀ m, (restore okOracle cfgTest "ts" "pre-change/x" true true).1 ≠
      .error (.dirtyWorkspace m)) :=
  ⟨rfl, fun _ => ⟨"audit-abc.jsonl", rfl⟩,
   restore_dirty_workspace_gate okOracle cfgTest "ts" "pre-change/x" true
     " M secrets/app.txt" rfl (fun _ => ⟨"audit-abc.jsonl", rfl⟩)⟩

/-- Witness for C7 (amended) on a concrete oracle. -/
theorem failure_audited_then_reraised_witness :
    auditOk okOracle ∧
    ((∀ e, (snapshotBody okOracle cfgTest "sid" "ts" none "normal").1 = .error e →
      (snapshot okOracle cfgTest "sid" "ts" none "normal").1 = .error e ∧
      ∃ record, Effect.auditWrite record ∈
          (snapshot okOracle cfgTest "sid" "ts" none "normal").2 ∧
        record.status = "error" ∧ record.error = some e.message) ∧
    (∀ e, (restoreBody okOracle cfgTest "ts" "v" true false).1 = .error e →
      (restore okOracle cfgTest "ts" "v" true false).1 = .error e ∧
      ∃ record, Effect.auditWrite record ∈
          (restore okOracle cfgTest "ts" "v" true false).2 ∧
        record.status = "error" ∧ record.error = some e.message) ∧
    (∀ e, (listBody okOracle cfgTest "ts" "all").1 = .error e →
      (listOp okOracle cfgTest "ts" "all").1 = .error e ∧
      ∃ record, Effect.auditWrite record ∈ (listOp okOracle cfgTest "ts" "all").2 ∧
        record.status = "error" ∧ record.error = some e.message) ∧
    (∀ e, (diffBody okOracle "ts" "a" "b").1 = .error e →
      (diff okOracle "ts" "a" "b").1 = .error e ∧
      ∃ record, Effect.auditWrite record ∈ (diff okOracle "ts" "a" "b").2 ∧
        record.status = "error" ∧ record.error = some e.message)) :=
  ⟨fun _ => ⟨"audit-abc.jsonl", rfl⟩,
   failure_audited_then_reraised okOracle cfgTest "sid" "ts" "v" "a" "b" "all" none
     "normal" true false (fun _ => ⟨"audit-abc.jsonl", rfl⟩)⟩

/-! ## JSON round-trip lemmas -/

theorem skipJsonWs_cons_of_neg {c : Char} (h : jsonWsChar c = false) (cs : List Char) :
    skipJsonWs (c :: cs) = c :: cs := by
  simp [skipJsonWs, List.dropWhile_cons, h]

theorem escString_cons (c : Char) (cs : List Char) :
    escString (c :: cs) = escCharJson c ++ escString cs := rfl

theorem escCharJson_plain {c : Char} (h32 : 32 ≤ c.toNat) (hq : c ≠ '"') (hb : c ≠ '\\') :
    escCharJson c = [c] := by
  simp only [escCharJson]
  rw [if_neg hq, if_neg hb,
    if_neg (by rintro rfl; exact absurd h32 (by decide)),
    if_neg (by rintro rfl; exact absurd h32 (by decide)),
    if_neg (by rintro rfl; exact absurd h32 (by decide)),
    if_neg (by omega), if_neg (by omega), if_neg (by omega)]

theorem parseStringBody_quote (X : List Char) :
    parseStringBody ('"' :: X) = some ([], X) := by
  rw [parseStringBody.eq_def]; rfl

theorem parseStringBody_escQuote (X : List Char) :
    parseStringBody ('\\' :: '"' :: X) =
      (parseStringBody X).map (fun p => ('"' :: p.1, p.2)) := by
  rw [parseStringBody.eq_def]; rfl

theorem parseStringBody_escBackslash (X : List Char) :
    parseStringBody ('\\' :: '\\' :: X) =
      (parseStringBody X).map (fun p => ('\\' :: p.1, p.2)) := by
  rw [parseStringBody.eq_def]; rfl

theorem parseStringBody_plain {c : Char} (hq : c ≠ '"') (hb : c ≠ '\\')
    (h32 : ¬c.toNat < 32) (X : List Char) :
    parseStringBody (c :: X) = (parseStringBody X).map (fun p => (c :: p.1, p.2)) := by
  rw [parseStringBody.eq_def]
  simp only [if_neg hq, if_neg hb, if_neg h32]

theorem parseStringBody_escape : ∀ (cs rest : List Char),
    (∀ c ∈ cs, 32 ≤ c.toNat) →
    parseStringBody (escString cs ++ '"' :: rest) = some (cs, rest)
  | [], rest, _ => by simp [escString, parseStringBody_quote]
  | c :: cs, rest, h => by
    have hc : 32 ≤ c.toNat := h c (List.mem_cons_self _ _)
    have ih := parseStringBody_escape cs rest (fun x hx => h x (List.mem_cons_of_mem _ hx))
    by_cases hq : c = '"'
    · subst hq
      show parseStringBody ('\\' :: '"' :: (escString cs ++ '"' :: rest)) = _
      rw [parseStringBody_escQuote, ih]
      rfl
    · by_cases hb : c = '\\'
      · subst hb
        show parseStringBody ('\\' :: '\\' :: (escString cs ++ '"' :: rest)) = _
        rw [parseStringBody_escBackslash, ih]
        rfl
      · rw [escString_cons, escCharJson_plain hc hq hb, List.singleton_append,
          List.cons_append, parseStringBody_plain hq hb (by omega), ih]
        rfl

theorem parseValue_quote (f : Nat) (X : List Char) :
    parseValue (f + 1) ('"' :: X) =
      (parseStringBody X).map (fun p => (Json.str (String.mk p.1), p.2)) := rfl

theorem parseValue_str (f : Nat) (s : String) (rest : List Char)
    (h : ∀ c ∈ s.data, 32 ≤ c.toNat) :
    parseValue (f + 1) (dumpStringJ s ++ rest) = some (.str s, rest) := by
  have hshape : dumpStringJ s ++ rest = '"' :: (escString s.data ++ '"' :: rest) := by
    simp [dumpStringJ]
  rw [hshape, parseValue_quote, parseStringBody_escape s.data rest h]
  rfl

theorem parseValue_ws {c : Char} (hws : jsonWsChar c = true) (f : Nat) (cs : List Char) :
    parseValue f (c :: cs) = parseValue f cs := by
  cases f with
  | zero => rfl
  | succ f =>
    rw [parseValue, parseValue]
    have : skipJsonWs (c :: cs) = skipJsonWs cs := by
      simp [skipJsonWs, List.dropWhile_cons, hws]
    rw [this]

theorem parseElems_ws {c : Char} (hws : jsonWsChar c = true) (f : Nat) (cs : List Char) :
    parseElems (f + 1) (c :: cs) = parseElems (f + 1) cs := by
  rw [parseElems, parseElems, parseValue_ws hws]

theorem parseMembers_ws {c : Char} (hws : jsonWsChar c = true) (f : Nat) (cs : List Char) :
    parseMembers (f + 1) (c :: cs) = parseMembers (f + 1) cs := by
  rw [parseMembers, parseMembers]
  have : skipJsonWs (c :: cs) = skipJsonWs cs := by
    simp [skipJsonWs, List.dropWhile_cons, hws]
  rw [this]

/-! ## C6: snapshot-id prefix monotonicity -/

theorem lex_append_both {α : Type} {r : α → α → Prop} :
    ∀ {a b : List α}, List.Lex r a b → a.length = b.length →
      ∀ (as bs : List α), List.Lex r (a ++ as) (b ++ bs)
  | _, _, List.Lex.nil, hlen, _, _ => by simp at hlen
  | _, _, List.Lex.rel h, _, _, _ => List.Lex.rel h
  | _, _, List.Lex.cons h, hlen, as, bs =>
    List.Lex.cons (lex_append_both h (by simpa using hlen) as bs)

theorem padNum_length (w : Nat) : ∀ n, (padNum w n).length = w := by
  induction w with
  | zero => intro n; rfl
  | succ w ih => intro n; simp [padNum, ih]

theorem digitChar_lt {a b : Nat} (ha : a < 10) (hb : b < 10) (hab : a < b) :
    Char.ofNat (48 + a) < Char.ofNat (48 + b) := by
  interval_cases a <;> interval_cases b <;> revert hab <;> decide

theorem padNum_lt : ∀ (w : Nat) {m n : Nat}, m < n → n < 10 ^ w →
    List.Lex (· < ·) (padNum w m) (padNum w n)
  | 0, m, n, hmn, hbound => by omega
  | w + 1, m, n, hmn, hbound => by
    have hd : m / 10 ≤ n / 10 := Nat.div_le_div_right (le_of_lt hmn)
    rcases lt_or_eq_of_le hd with hlt | heq
    · have hb : n / 10 < 10 ^ w := by
        rw [Nat.div_lt_iff_lt_mul (by norm_num)]
        calc n < 10 ^ (w + 1) := hbound
          _ = 10 ^ w * 10 := by ring
      exact lex_append_both (padNum_lt w hlt hb) (by simp [padNum_length]) _ _
    · have hmod : m % 10 < n % 10 := by
        have hm := Nat.div_add_mod m 10
        have hn := Nat.div_add_mod n 10
        omega
      simp only [padNum, heq]
      exact List.Lex.append_left _
        (List.Lex.rel (digitChar_lt (Nat.mod_lt _ (by norm_num))
          (Nat.mod_lt _ (by norm_num)) hmod)) _

theorem formatTs_lt {t1 t2 : Tm} (h1 : t1.fits) (h2 : t2.fits)
    (h : List.Lex (· < ·) [t1.year, t1.month, t1.day, t1.hour, t1.minute, t1.second]
      [t2.year, t2.month, t2.day, t2.hour, t2.minute, t2.second]) :
    List.Lex (· < ·) (formatTs t1).data (formatTs t2).data := by
  obtain ⟨y1, mo1, dy1, hr1, mi1, sc1⟩ := t1
  obtain ⟨y2, mo2, dy2, hr2, mi2, sc2⟩ := t2
  obtain ⟨hy1, hmo1, hd1, hh1, hmi1, hs1⟩ := h1
  obtain ⟨hy2, hmo2, hd2, hh2, hmi2, hs2⟩ := h2
  dsimp only at hy1 hmo1 hd1 hh1 hmi1 hs1 hy2 hmo2 hd2 hh2 hmi2 hs2
  simp only [formatTs] at h ⊢
  cases h with
  | rel hr =>
    exact lex_append_both (padNum_lt 4 hr (by omega)) (by simp [padNum_length]) _ _
  | cons h =>
    apply List.Lex.append_left
    cases h with
    | rel hr =>
      exact lex_append_both (padNum_lt 2 hr (by omega)) (by simp [padNum_length]) _ _
    | cons h =>
      apply List.Lex.append_left
      cases h with
      | rel hr =>
        exact lex_append_both (padNum_lt 2 hr (by omega)) (by simp [padNum_length]) _ _
      | cons h =>
        apply List.Lex.append_left
        apply List.Lex.append_left
        cases h with
        | rel hr =>
          exact lex_append_both (padNum_lt 2 hr (by omega)) (by simp [padNum_length]) _ _
        | cons h =>
          apply List.Lex.append_left
          cases h with
          | rel hr =>
            exact lex_append_both (padNum_lt 2 hr (by omega)) (by simp [padNum_length]) _ _
          | cons h =>
            apply List.Lex.append_left
            cases h with
            | rel hr => exact padNum_lt 2 hr (by omega)
            | cons h => cases h

/-- C6: the `YYYYMMDD-HHMMSS` portion of generated snapshot ids is
non-decreasing with the wall-clock time they were generated at, for any
random suffixes. -/
theorem snapshot_id_prefix_monotone (t1 t2 : Tm) (r1 r2 : String)
    (h1 : t1.fits) (h2 : t2.fits) (hle : t1.chronoLE t2) :
    idDatePart (generate_snapshot_id t1 r1) ≤ idDatePart (generate_snapshot_id t2 r2) := by
  have hid : ∀ (t : Tm) (r : String), idDatePart (generate_snapshot_id t r) = formatTs t := by
    intro t r
    have hlen : (formatTs t).data.length = 15 := by
      simp [formatTs, padNum_length]
    unfold idDatePart generate_snapshot_id
    rw [String.data_append, String.data_append, List.append_assoc,
      List.take_left' hlen]
  rw [hid, hid]
  rcases eq_or_lt_of_le hle with heq | hlt
  · simp only [List.cons.injEq, and_true] at heq
    obtain ⟨e1, e2, e3, e4, e5, e6⟩ := heq
    have : t1 = t2 := by
      cases t1; cases t2
      simp_all
    rw [this]
  · have hlex : List.Lex (· < ·)
        [t1.year, t1.month, t1.day, t1.hour, t1.minute, t1.second]
        [t2.year, t2.month, t2.day, t2.hour, t2.minute, t2.second] := hlt
    have := formatTs_lt h1 h2 hlex
    rw [String.le_iff_toList_le]
    exact le_of_lt this

/-- Witness for C6 at two concrete times one second apart. -/
theorem snapshot_id_prefix_monotone_witness :
    (Tm.mk 2025 1 1 23 59 59).fits ∧ (Tm.mk 2025 1 2 0 0 0).fits ∧
    (Tm.mk 2025 1 1 23 59 59).chronoLE (Tm.mk 2025 1 2 0 0 0) ∧
    idDatePart (generate_snapshot_id (Tm.mk 2025 1 1 23 59 59) "ab12") ≤
      idDatePart (generate_snapshot_id (Tm.mk 2025 1 2 0 0 0) "zz99") :=
  ⟨by decide, by decide, by decide,
   snapshot_id_prefix_monotone (Tm.mk 2025 1 1 23 59 59) (Tm.mk 2025 1 2 0 0 0)
     "ab12" "zz99" (by decide) (by decide) (by decide)⟩

/-! ## JSON array round-trip -/

theorem parseValue_str_of_le {f : Nat} (h : 1 ≤ f) (s : String) (rest : List Char)
    (hs : ∀ c ∈ s.data, 32 ≤ c.toNat) :
    parseValue f (dumpStringJ s ++ rest) = some (.str s, rest) := by
  cases f with
  | zero => omega
  | succ f => exact parseValue_str f s rest hs

theorem parseElems_strs : ∀ (ps : List String) (f : Nat) (rest : List Char),
    ps ≠ [] → ps.length ≤ f →
    (∀ p ∈ ps, ∀ c ∈ p.data, 32 ≤ c.toNat) →
    parseElems (f + 1) (dumpElems (ps.map .str) ++ ']' :: rest) =
      some (ps.map .str, rest)
  | [], _, _, hne, _, _ => absurd rfl hne
  | [p], f, rest, _, hf, hc => by
    have hp : ∀ c ∈ p.data, 32 ≤ c.toNat := hc p (by simp)
    simp only [List.length_cons, List.length_nil] at hf
    rw [parseElems]
    show (match parseValue f (dumpStringJ p ++ ']' :: rest) with
      | none => none
      | some (v, r) =>
        match skipJsonWs r with
        | c :: rest2 =>
          if c = ',' then
            match parseElems f rest2 with
            | some (vs, rest3) => some (v :: vs, rest3)
            | none => none
          else if c = ']' then some ([v], rest2)
          else none
        | [] => none) = some ([Json.str p], rest)
    rw [parseValue_str_of_le (by omega) p (']' :: rest) hp]
    rfl
  | p :: q :: ps, f, rest, _, hf, hc => by
    have hp : ∀ c ∈ p.data, 32 ≤ c.toNat := hc p (List.mem_cons_self p _)
    simp only [List.length_cons] at hf
    obtain ⟨f, rfl⟩ : ∃ g, f = g + 1 := ⟨f - 1, by omega⟩
    have ih := parseElems_strs (q :: ps) f rest (by simp) (by simp; omega)
      (fun x hx => hc x (List.mem_cons_of_mem p hx))
    rw [parseElems]
    show (match parseValue (f + 1)
        (dumpElems ((p :: q :: ps).map Json.str) ++ ']' :: rest) with
      | none => none
      | some (v, r) =>
        match skipJsonWs r with
        | c :: rest2 =>
          if c = ',' then
            match parseElems (f + 1) rest2 with
            | some (vs, rest3) => some (v :: vs, rest3)
            | none => none
          else if c = ']' then some ([v], rest2)
          else none
        | [] => none) = some ((p :: q :: ps).map Json.str, rest)
    have hshape : dumpElems ((p :: q :: ps).map Json.str) ++ ']' :: rest =
        dumpStringJ p ++ (',' :: ' ' :: (dumpElems ((q :: ps).map Json.str) ++ ']' :: rest)) := by
      simp [dumpElems, jsonDumps, List.append_assoc]
    rw [hshape, parseValue_str_of_le (by omega) p _ hp]
    show (match parseElems (f + 1)
        (' ' :: (dumpElems ((q :: ps).map Json.str) ++ ']' :: rest)) with
      | some (vs, rest3) => some (Json.str p :: vs, rest3)
      | none => none) = some ((p :: q :: ps).map Json.str, rest)
    rw [parseElems_ws (by decide : jsonWsChar ' ' = true), ih]
    rfl

theorem dumpElems_str_cons (p : String) (ps : List String) :
    ∃ Y, dumpElems ((p :: ps).map .str) = '"' :: Y := by
  cases ps with
  | nil => exact ⟨escString p.data ++ ['"'], rfl⟩
  | cons q qs =>
    refine ⟨escString p.data ++ ['"'] ++ ',' :: ' ' :: dumpElems ((q :: qs).map .str), ?_⟩
    show jsonDumps (.str p) ++ ',' :: ' ' :: dumpElems ((q :: qs).map .str) = _
    simp [jsonDumps, dumpStringJ, List.append_assoc]

theorem parseValue_arrStrs (ps : List String) (f : Nat) (rest : List Char)
    (hf : ps.length < f)
    (hc : ∀ p ∈ ps, ∀ c ∈ p.data, 32 ≤ c.toNat) :
    parseValue (f + 1) ('[' :: (dumpElems (ps.map .str) ++ ']' :: rest)) =
      some (.arr (ps.map .str), rest) := by
  cases ps with
  | nil => rfl
  | cons p ps =>
    obtain ⟨g, rfl⟩ : ∃ g, f = g + 1 := ⟨f - 1, by omega⟩
    obtain ⟨Y, hY⟩ := dumpElems_str_cons p ps
    have ih := parseElems_strs (p :: ps) g rest (by simp)
      (by simpa using Nat.lt_succ_iff.mp hf) hc
    rw [hY] at ih ⊢
    simp only [List.cons_append] at ih ⊢
    rw [parseValue]
    show (match skipJsonWs ('"' :: (Y ++ ']' :: rest)) with
      | d :: rest2 =>
        if d = ']' then some (.arr [], rest2)
        else (parseElems (g + 1) (skipJsonWs ('"' :: (Y ++ ']' :: rest)))).map
          (fun p => (Json.arr p.1, p.2))
      | [] => none) = some (.arr ((p :: ps).map .str), rest)
    rw [skipJsonWs_cons_of_neg (by decide : jsonWsChar '"' = false), ih]
    rfl

theorem parseMembers_last (k : String) (v : Json) (vc rest : List Char) (f : Nat)
    (hk : ∀ c ∈ k.data, 32 ≤ c.toNat)
    (hv : parseValue f (vc ++ rbrace :: rest) = some (v, rbrace :: rest)) :
    parseMembers (f + 1) (dumpStringJ k ++ ':' :: ' ' :: (vc ++ rbrace :: rest)) =
      some ([(k, v)], rest) := by
  have hshape : dumpStringJ k ++ ':' :: ' ' :: (vc ++ rbrace :: rest) =
      '"' :: (escString k.data ++ '"' :: (':' :: ' ' :: (vc ++ rbrace :: rest))) := by
    simp [dumpStringJ, List.append_assoc]
  rw [hshape, parseMembers]
  show (match skipJsonWs ('"' :: (escString k.data ++ '"' ::
      (':' :: ' ' :: (vc ++ rbrace :: rest)))) with
    | c :: rest1 =>
      if c = '"' then
        match parseStringBody rest1 with
        | none => none
        | some (kk, rest2) =>
          match skipJsonWs rest2 with
          | d :: rest3 =>
            if d = ':' then
              match parseValue f rest3 with
              | none => none
              | some (w, rest4) =>
                match skipJsonWs rest4 with
                | e :: rest5 =>
                  if e = ',' then
                    match parseMembers f rest5 with
                    | some (ms, rest6) => some ((String.mk kk, w) :: ms, rest6)
                    | none => none
                  else if e = rbrace then some ([(String.mk kk, w)], rest5)
                  else none
                | [] => none
            else none
          | [] => none
      else none
    | [] => none) = some ([(k, v)], rest)
  rw [skipJsonWs_cons_of_neg (by decide : jsonWsChar '"' = false)]
  show (match parseStringBody (escString k.data ++ '"' ::
      (':' :: ' ' :: (vc ++ rbrace :: rest))) with
    | none => none
    | some (kk, rest2) =>
      match skipJsonWs rest2 with
      | d :: rest3 =>
        if d = ':' then
          match parseValue f rest3 with
          | none => none
          | some (w, rest4) =>
            match skipJsonWs rest4 with
            | e :: rest5 =>
              if e = ',' then
                match parseMembers f rest5 with
                | some (ms, rest6) => some ((String.mk kk, w) :: ms, rest6)
                | none => none
              else if e = rbrace then some ([(String.mk kk, w)], rest5)
              else none
            | [] => none
        else none
      | [] => none) = some ([(k, v)], rest)
  rw [parseStringBody_escape k.data _ hk]
  show (match parseValue f (' ' :: (vc ++ rbrace :: rest)) with
    | none => none
    | some (w, rest4) =>
      match skipJsonWs rest4 with
      | e :: rest5 =>
        if e = ',' then
          match parseMembers f rest5 with
          | some (ms, rest6) => some ((String.mk k.data, w) :: ms, rest6)
          | none => none
        else if e = rbrace then some ([(String.mk k.data, w)], rest5)
        else none
      | [] => none) = some ([(k, v)], rest)
  rw [parseValue_ws (by decide : jsonWsChar ' ' = true), hv]
  rfl

theorem parseMembers_cons_step (k : String) (v : Json) (vc ms : List Char) (f : Nat)
    (hf : 1 ≤ f)
    (hk : ∀ c ∈ k.data, 32 ≤ c.toNat)
    (hv : parseValue f (vc ++ ',' :: ' ' :: ms) = some (v, ',' :: ' ' :: ms)) :
    parseMembers (f + 1) (dumpStringJ k ++ ':' :: ' ' :: (vc ++ ',' :: ' ' :: ms)) =
      (parseMembers f ms).map (fun p => ((k, v) :: p.1, p.2)) := by
  obtain ⟨g, rfl⟩ : ∃ g, f = g + 1 := ⟨f - 1, by omega⟩
  have hshape : dumpStringJ k ++ ':' :: ' ' :: (vc ++ ',' :: ' ' :: ms) =
      '"' :: (escString k.data ++ '"' :: (':' :: ' ' :: (vc ++ ',' :: ' ' :: ms))) := by
    simp [dumpStringJ, List.append_assoc]
  rw [hshape, parseMembers]
  show (match skipJsonWs ('"' :: (escString k.data ++ '"' ::
      (':' :: ' ' :: (vc ++ ',' :: ' ' :: ms)))) with
    | c :: rest1 =>
      if c = '"' then
        match parseStringBody rest1 with
        | none => none
        | some (kk, rest2) =>
          match skipJsonWs rest2 with
          | d :: rest3 =>
            if d = ':' then
              match parseValue (g + 1) rest3 with
              | none => none
              | some (w, rest4) =>
                match skipJsonWs rest4 with
                | e :: rest5 =>
                  if e = ',' then
                    match parseMembers (g + 1) rest5 with
                    | some (mms, rest6) => some ((String.mk kk, w) :: mms, rest6)
                    | none => none
                  else if e = rbrace then some ([(String.mk kk, w)], rest5)
                  else none
                | [] => none
            else none
          | [] => none
      else none
    | [] => none) = (parseMembers (g + 1) ms).map (fun p => ((k, v) :: p.1, p.2))
  rw [skipJsonWs_cons_of_neg (by decide : jsonWsChar '"' = false)]
  show (match parseStringBody (escString k.data ++ '"' ::
      (':' :: ' ' :: (vc ++ ',' :: ' ' :: ms))) with
    | none => none
    | some (kk, rest2) =>
      match skipJsonWs rest2 with
      | d :: rest3 =>
        if d = ':' then
          match parseValue (g + 1) rest3 with
          | none => none
          | some (w, rest4) =>
            match skipJsonWs rest4 with
            | e :: rest5 =>
              if e = ',' then
                match parseMembers (g + 1) rest5 with
                | some (mms, rest6) => some ((String.mk kk, w) :: mms, rest6)
                | none => none
              else if e = rbrace then some ([(String.mk kk, w)], rest5)
              else none
            | [] => none
        else none
      | [] => none) = (parseMembers (g + 1) ms).map (fun p => ((k, v) :: p.1, p.2))
  rw [parseStringBody_escape k.data _ hk]
  show (match parseValue (g + 1) (' ' :: (vc ++ ',' :: ' ' :: ms)) with
    | none => none
    | some (w, rest4) =>
      match skipJsonWs rest4 with
      | e :: rest5 =>
        if e = ',' then
          match parseMembers (g + 1) rest5 with
          | some (mms, rest6) => some ((String.mk k.data, w) :: mms, rest6)
          | none => none
        else if e = rbrace then some ([(String.mk k.data, w)], rest5)
        else none
      | [] => none) = (parseMembers (g + 1) ms).map (fun p => ((k, v) :: p.1, p.2))
  rw [parseValue_ws (by decide : jsonWsChar ' ' = true), hv]
  show (match parseMembers (g + 1) (' ' :: ms) with
    | some (mms, rest6) => some ((String.mk k.data, v) :: mms, rest6)
    | none => none) = (parseMembers (g + 1) ms).map (fun p => ((k, v) :: p.1, p.2))
  rw [parseMembers_ws (by decide : jsonWsChar ' ' = true)]
  cases parseMembers (g + 1) ms with
  | none => rfl
  | some p => rfl

theorem parseMembers_env (r k : String) (ps : List String) (f : Nat) (rest : List Char)
    (hf : ps.length + 3 ≤ f)
    (hr : ∀ c ∈ r.data, 32 ≤ c.toNat) (hk : ∀ c ∈ k.data, 32 ≤ c.toNat)
    (hps : ∀ p ∈ ps, ∀ c ∈ p.data, 32 ≤ c.toNat) :
    parseMembers (f + 1)
        (dumpMembers [("reason", .str r), ("changed_paths", .arr (ps.map .str)),
          ("risk", .str k)] ++ rbrace :: rest) =
      some ([("reason", .str r), ("changed_paths", .arr (ps.map .str)),
        ("risk", .str k)], rest) := by
  obtain ⟨f2, rfl⟩ : ∃ g, f = g + 2 := ⟨f - 2, by omega⟩
  have h3 : parseMembers (f2 + 1) (dumpMembers [("risk", Json.str k)] ++ rbrace :: rest) =
      some ([("risk", Json.str k)], rest) := by
    have hshape : dumpMembers [("risk", Json.str k)] ++ rbrace :: rest =
        dumpStringJ "risk" ++ ':' :: ' ' :: (dumpStringJ k ++ rbrace :: rest) := by
      simp [dumpMembers, jsonDumps, List.append_assoc]
    rw [hshape]
    exact parseMembers_last "risk" (.str k) (dumpStringJ k) rest f2 (by decide)
      (parseValue_str_of_le (by omega) k _ hk)
  have h2 : parseMembers (f2 + 1 + 1)
      (dumpMembers [("changed_paths", Json.arr (ps.map .str)), ("risk", Json.str k)] ++
        rbrace :: rest) =
      some ([("changed_paths", Json.arr (ps.map .str)), ("risk", Json.str k)], rest) := by
    have hshape : dumpMembers [("changed_paths", Json.arr (ps.map .str)),
          ("risk", Json.str k)] ++ rbrace :: rest =
        dumpStringJ "changed_paths" ++ ':' :: ' ' ::
          (('[' :: (dumpElems (ps.map .str) ++ [']'])) ++ ',' :: ' ' ::
            (dumpMembers [("risk", Json.str k)] ++ rbrace :: rest)) := by
      simp [dumpMembers, jsonDumps, List.append_assoc]
    have hvArr : parseValue (f2 + 1)
        (('[' :: (dumpElems (ps.map .str) ++ [']'])) ++ ',' :: ' ' ::
          (dumpMembers [("risk", Json.str k)] ++ rbrace :: rest)) =
        some (Json.arr (ps.map .str), ',' :: ' ' ::
          (dumpMembers [("risk", Json.str k)] ++ rbrace :: rest)) := by
      have := parseValue_arrStrs ps f2
        (',' :: ' ' :: (dumpMembers [("risk", Json.str k)] ++ rbrace :: rest))
        (by omega) hps
      simpa [List.append_assoc] using this
    rw [hshape, parseMembers_cons_step "changed_paths" (Json.arr (ps.map .str)) _ _
      (f2 + 1) (by omega) (by decide) hvArr, h3]
    rfl
  have hshape1 : dumpMembers [("reason", Json.str r),
        ("changed_paths", Json.arr (ps.map .str)), ("risk", Json.str k)] ++
        rbrace :: rest =
      dumpStringJ "reason" ++ ':' :: ' ' ::
        (dumpStringJ r ++ ',' :: ' ' ::
          (dumpMembers [("changed_paths", Json.arr (ps.map .str)),
            ("risk", Json.str k)] ++ rbrace :: rest)) := by
    simp [dumpMembers, jsonDumps, List.append_assoc]
  rw [hshape1, parseMembers_cons_step "reason" (Json.str r) _ _
    (f2 + 1 + 1) (by omega) (by decide)
    (parseValue_str_of_le (by omega) r _ hr), h2]
  rfl

theorem dumpElems_strs_len : ∀ ps : List String,
    ps.length ≤ (dumpElems (ps.map .str)).length + 1
  | [] => by simp
  | [p] => by simp
  | p :: q :: ps => by
    have ih := dumpElems_strs_len (q :: ps)
    have hsh : dumpElems ((p :: q :: ps).map .str) =
        jsonDumps (.str p) ++ ',' :: ' ' :: dumpElems ((q :: ps).map .str) := by
      simp [dumpElems]
    rw [hsh]
    simp only [List.length_append, List.length_cons, List.length_map] at ih ⊢
    omega

theorem dumps_env_len (r k : String) (ps : List String) :
    ps.length + 4 ≤ (jsonDumps (envelopeBody r k ps)).length := by
  have hd := dumpElems_strs_len ps
  have hsh : jsonDumps (envelopeBody r k ps) =
      lbrace :: (dumpMembers [("reason", Json.str r),
        ("changed_paths", Json.arr (ps.map .str)), ("risk", Json.str k)] ++ [rbrace]) := by
    simp [jsonDumps, envelopeBody]
  rw [hsh]
  simp only [dumpMembers, jsonDumps, dumpStringJ, List.length_append, List.length_cons,
    List.append_assoc]
  omega

theorem jsonLoads_envelope (r k : String) (ps : List String)
    (hr : ∀ c ∈ r.data, 32 ≤ c.toNat) (hk : ∀ c ∈ k.data, 32 ≤ c.toNat)
    (hps : ∀ p ∈ ps, ∀ c ∈ p.data, 32 ≤ c.toNat) :
    jsonLoads (String.mk (jsonDumps (envelopeBody r k ps))) =
      some (envelopeBody r k ps) := by
  have hlen := dumps_env_len r k ps
  obtain ⟨f, hf1, hf2⟩ : ∃ f, (jsonDumps (envelopeBody r k ps)).length = f + 1 ∧
      ps.length + 3 ≤ f :=
    ⟨(jsonDumps (envelopeBody r k ps)).length - 1, by omega, by omega⟩
  have hmem := parseMembers_env r k ps f [] hf2 hr hk hps
  obtain ⟨Y, hY⟩ : ∃ Y, dumpMembers [("reason", Json.str r),
      ("changed_paths", Json.arr (ps.map .str)), ("risk", Json.str k)] ++ [rbrace] =
      '"' :: Y := by
    refine ⟨escString "reason".data ++ '"' :: (':' :: ' ' ::
      (dumpStringJ r ++ ',' :: ' ' ::
        (dumpMembers [("changed_paths", Json.arr (ps.map .str)),
          ("risk", Json.str k)] ++ [rbrace]))), ?_⟩
    simp [dumpMembers, dumpStringJ, jsonDumps, List.append_assoc]
  have hval : parseValue (f + 1 + 1) (jsonDumps (envelopeBody r k ps)) =
      some (envelopeBody r k ps, []) := by
    have hsh : jsonDumps (envelopeBody r k ps) =
        lbrace :: (dumpMembers [("reason", Json.str r),
          ("changed_paths", Json.arr (ps.map .str)), ("risk", Json.str k)] ++ [rbrace]) := by
      simp [jsonDumps, envelopeBody]
    rw [hsh, hY, parseValue]
    show (match skipJsonWs ('"' :: Y) with
      | d :: _ =>
        if d = rbrace then some (Json.obj [], (skipJsonWs ('"' :: Y)).tail)
        else (parseMembers (f + 1) (skipJsonWs ('"' :: Y))).map
          (fun p => (Json.obj p.1, p.2))
      | [] => none) = some (envelopeBody r k ps, [])
    rw [skipJsonWs_cons_of_neg (by decide : jsonWsChar '"' = false)]
    show (parseMembers (f + 1) ('"' :: Y)).map (fun p => (Json.obj p.1, p.2)) =
      some (envelopeBody r k ps, [])
    rw [← hY, hmem]
    rfl
  show (match parseValue ((jsonDumps (envelopeBody r k ps)).length + 1)
      (jsonDumps (envelopeBody r k ps)) with
    | some (v, rest) => if (skipJsonWs rest).isEmpty then some v else none
    | none => none) = some (envelopeBody r k ps)
  rw [hf1, hval]
  rfl

/-! ## Commit-message parsing lemmas -/

theorem strData_append (a b : String) : (a ++ b).data = a.data ++ b.data := rfl

theorem strData_mk (l : List Char) : (String.mk l).data = l := rfl

theorem ne_of_pred_false {p : Char → Bool} {c k : Char} (h : p c = true)
    (hk : p k = false) : c ≠ k := fun e => by rw [e, hk] at h; exact Bool.noConfusion h

theorem ne_of_pred_true {p : Char → Bool} {c k : Char} (h : p c = false)
    (hk : p k = true) : c ≠ k := fun e => by rw [e, hk] at h; exact Bool.noConfusion h

theorem isEmpty_false_of_ne {l : List Char} (h : l ≠ []) : l.isEmpty = false := by
  cases l with
  | nil => exact absurd rfl h
  | cons a l => rfl

theorem pySplitChar_not_mem {c : Char} : ∀ {xs : List Char}, c ∉ xs →
    pySplitChar c xs = [xs]
  | [], _ => rfl
  | d :: ds, h => by
    have hd : ¬d = c := fun hdc => h (hdc ▸ List.mem_cons_self d ds)
    have ih := pySplitChar_not_mem (fun hm => h (List.mem_cons_of_mem d hm))
    simp [pySplitChar, hd, ih, consHead]

theorem pySplitChar_append_sep {c : Char} : ∀ {xs : List Char}, c ∉ xs → ∀ ys,
    pySplitChar c (xs ++ c :: ys) = xs :: pySplitChar c ys
  | [], _, ys => by simp [pySplitChar]
  | d :: ds, h, ys => by
    have hd : ¬d = c := fun hdc => h (hdc ▸ List.mem_cons_self d ds)
    have ih := pySplitChar_append_sep (fun hm => h (List.mem_cons_of_mem d hm)) ys
    simp [pySplitChar, hd, ih, consHead]

theorem breakAtChar_append {c : Char} : ∀ {xs : List Char}, c ∉ xs → ∀ ys,
    breakAtChar c (xs ++ c :: ys) = (xs, some ys)
  | [], _, ys => by simp [breakAtChar]
  | d :: ds, h, ys => by
    have hd : ¬d = c := fun hdc => h (hdc ▸ List.mem_cons_self d ds)
    have ih := breakAtChar_append (fun hm => h (List.mem_cons_of_mem d hm)) ys
    simp [breakAtChar, hd, ih]

theorem dropWhile_eq_self_of_forall {p : Char → Bool} : ∀ {l : List Char},
    (∀ x ∈ l, p x = false) → l.dropWhile p = l
  | [], _ => rfl
  | d :: ds, h => by
    simp [List.dropWhile_cons, h d (List.mem_cons_self d ds)]

theorem pyStrip_eq_nil_imp {cs : List Char} (h : pyStrip cs = []) :
    ∀ x ∈ cs, pyIsSpace x = true := by
  unfold pyStrip at h
  have h1 : (cs.dropWhile pyIsSpace).reverse.dropWhile pyIsSpace = [] := by
    have := congrArg List.reverse h
    simpa using this
  have h3 : ∀ x ∈ cs.dropWhile pyIsSpace, pyIsSpace x = true := by
    intro x hx
    exact List.dropWhile_eq_nil_iff.mp h1 x (List.mem_reverse.mpr hx)
  intro x hx
  rcases List.mem_append.mp
      ((List.takeWhile_append_dropWhile (p := pyIsSpace) (l := cs)) ▸ hx) with h4 | h4
  · exact List.mem_takeWhile_imp h4
  · exact h3 x h4

theorem pyPartitionNN_append : ∀ {h : List Char}, '\n' ∉ h → ∀ b,
    pyPartitionNN (h ++ '\n' :: '\n' :: b) = (h, b)
  | [], _, b => by simp [pyPartitionNN]
  | d :: ds, hmem, b => by
    have hd : ¬d = '\n' := fun hdc => hmem (hdc ▸ List.mem_cons_self d ds)
    have ih := pyPartitionNN_append (fun hm => hmem (List.mem_cons_of_mem d hm)) b
    simp only [List.cons_append, pyPartitionNN]
    rw [if_neg hd, List.append_eq, ih]

theorem pyRstrip_append (c : Char) {l : List Char} (h : c ∉ l) :
    pyRstrip c (l ++ [c]) = l := by
  unfold pyRstrip
  have h1 : (l ++ [c]).reverse = c :: l.reverse := by simp
  rw [h1, List.dropWhile_cons, if_pos (by simp),
    dropWhile_eq_self_of_forall (fun x hx => by
      have hxc : x ≠ c := fun hxc => h (hxc ▸ List.mem_reverse.mp hx)
      simp [hxc]),
    List.reverse_reverse]

theorem pySplitWsGo_run : ∀ (tok : List Char), (∀ x ∈ tok, pyIsSpace x = false) →
    ∀ (acc rest : List Char),
    pySplitWsGo acc (tok ++ rest) = pySplitWsGo (tok.reverse ++ acc) rest
  | [], _, acc, rest => by simp
  | d :: ds, h, acc, rest => by
    have hd : pyIsSpace d = false := h d (List.mem_cons_self d ds)
    have ih := pySplitWsGo_run ds (fun x hx => h x (List.mem_cons_of_mem d hx))
      (d :: acc) rest
    simp only [List.cons_append, pySplitWsGo]
    rw [hd]
    show pySplitWsGo (d :: acc) (ds ++ rest) = _
    rw [ih]
    simp [List.append_assoc]

theorem pySplitWs_token (tok : List Char) (hne : tok ≠ [])
    (hns : ∀ x ∈ tok, pyIsSpace x = false) (rest : List Char) :
    pySplitWsGo [] (tok ++ ' ' :: rest) = tok :: pySplitWsGo [] rest := by
  rw [pySplitWsGo_run tok hns [] (' ' :: rest), List.append_nil, pySplitWsGo]
  rw [show pyIsSpace ' ' = true from by decide]
  show (if tok.reverse.isEmpty then pySplitWsGo [] rest
    else tok.reverse.reverse :: pySplitWsGo [] rest) = tok :: pySplitWsGo [] rest
  rw [isEmpty_false_of_ne (by simpa using hne)]
  simp

theorem header_tokens (sidD tail : List Char) (hne : sidD ≠ [])
    (hns : ∀ x ∈ sidD, pyIsSpace x = false) :
    (pySplitWs ("TimeMachine snapshot ".data ++ (sidD ++ ' ' :: tail))).get? 2 =
      some sidD := by
  show (pySplitWsGo [] ("TimeMachine".data ++ ' ' ::
    ("snapshot".data ++ ' ' :: (sidD ++ ' ' :: tail)))).get? 2 = some sidD
  rw [pySplitWs_token "TimeMachine".data (by decide) (by decide),
    pySplitWs_token "snapshot".data (by decide) (by decide),
    pySplitWs_token sidD hne hns]
  rfl

theorem validSidChar_spec {c : Char} (h : validSidChar c = true) :
    c.toNat = 45 ∨ (48 ≤ c.toNat ∧ c.toNat ≤ 57) ∨ (97 ≤ c.toNat ∧ c.toNat ≤ 122) := by
  simpa [validSidChar] using h

theorem validSidChar_not_space {c : Char} (h : validSidChar c = true) :
    pyIsSpace c = false := by
  have := validSidChar_spec h
  simp only [pyIsSpace, decide_eq_false_iff_not]
  omega

theorem hasNoCtrl_ge32 {s : String} (h : hasNoCtrl s) :
    ∀ c ∈ s.data, 32 ≤ c.toNat := by
  intro c hc
  have := h c hc
  simp only [isCtrlChar, decide_eq_false_iff_not] at this
  omega

theorem hexDigitChar_ge32 {n : Nat} (h : n ≤ 15) : 32 ≤ (hexDigitChar n).toNat := by
  interval_cases n <;> decide

theorem escCharJson_ge32 (c : Char) : ∀ d ∈ escCharJson c, 32 ≤ d.toNat := by
  unfold escCharJson
  split_ifs with h1 h2 h3 h4 h5 h6 h7 h8
  · intro d hd; fin_cases hd <;> decide
  · intro d hd; fin_cases hd <;> decide
  · intro d hd; fin_cases hd <;> decide
  · intro d hd; fin_cases hd <;> decide
  · intro d hd; fin_cases hd <;> decide
  · intro d hd; fin_cases hd <;> decide
  · intro d hd; fin_cases hd <;> decide
  · intro d hd
    fin_cases hd <;> first
      | decide
      | · apply hexDigitChar_ge32; omega
  · intro d hd
    fin_cases hd
    omega

theorem escString_ge32 : ∀ (cs : List Char), ∀ d ∈ escString cs, 32 ≤ d.toNat
  | [], _, hd => by simp [escString] at hd
  | c :: cs, d, hd => by
    rw [escString_cons] at hd
    rcases List.mem_append.mp hd with h | h
    · exact escCharJson_ge32 c d h
    · exact escString_ge32 cs d h

theorem dumpStringJ_ge32 (s : String) : ∀ d ∈ dumpStringJ s, 32 ≤ d.toNat := by
  intro d hd
  unfold dumpStringJ at hd
  rcases List.mem_cons.mp hd with rfl | hd
  · decide
  rcases List.mem_append.mp hd with h | h
  · exact escString_ge32 s.data d h
  · rcases List.mem_singleton.mp h with rfl
    decide

theorem dumpElems_strs_ge32 : ∀ (ps : List String), ∀ d ∈ dumpElems (ps.map .str),
    32 ≤ d.toNat
  | [], _, hd => by simp [dumpElems] at hd
  | [p], d, hd => dumpStringJ_ge32 p d hd
  | p :: q :: ps, d, hd => by
    have hsh : dumpElems ((p :: q :: ps).map .str) =
        dumpStringJ p ++ ',' :: ' ' :: dumpElems ((q :: ps).map .str) := by
      simp [dumpElems, jsonDumps]
    rw [hsh] at hd
    rcases List.mem_append.mp hd with h | h
    · exact dumpStringJ_ge32 p d h
    rcases List.mem_cons.mp h with rfl | h
    · decide
    rcases List.mem_cons.mp h with rfl | h
    · decide
    · exact dumpElems_strs_ge32 (q :: ps) d h

theorem dumps_env_ge32 (r k : String) (ps : List String) :
    ∀ d ∈ jsonDumps (envelopeBody r k ps), 32 ≤ d.toNat := by
  intro d hd
  have hsh : jsonDumps (envelopeBody r k ps) =
      lbrace :: (dumpStringJ "reason" ++ ':' :: ' ' ::
        (dumpStringJ r ++ ',' :: ' ' ::
          (dumpStringJ "changed_paths" ++ ':' :: ' ' ::
            (('[' :: (dumpElems (ps.map .str) ++ [']'])) ++ ',' :: ' ' ::
              (dumpStringJ "risk" ++ ':' :: ' ' ::
                (dumpStringJ k ++ [rbrace])))))) := by
    simp [jsonDumps, envelopeBody, dumpMembers, List.append_assoc]
  rw [hsh] at hd
  rcases List.mem_cons.mp hd with rfl | hd
  · decide
  rcases List.mem_append.mp hd with h | hd
  · exact dumpStringJ_ge32 "reason" d h
  rcases List.mem_cons.mp hd with rfl | hd
  · decide
  rcases List.mem_cons.mp hd with rfl | hd
  · decide
  rcases List.mem_append.mp hd with h | hd
  · exact dumpStringJ_ge32 r d h
  rcases List.mem_cons.mp hd with rfl | hd
  · decide
  rcases List.mem_cons.mp hd with rfl | hd
  · decide
  rcases List.mem_append.mp hd with h | hd
  · exact dumpStringJ_ge32 "changed_paths" d h
  rcases List.mem_cons.mp hd with rfl | hd
  · decide
  rcases List.mem_cons.mp hd with rfl | hd
  · decide
  rcases List.mem_append.mp hd with h | hd
  · rcases List.mem_cons.mp h with rfl | h
    · decide
    rcases List.mem_append.mp h with h2 | h2
    · exact dumpElems_strs_ge32 ps d h2
    · rcases List.mem_singleton.mp h2 with rfl
      decide
  rcases List.mem_cons.mp hd with rfl | hd
  · decide
  rcases List.mem_cons.mp hd with rfl | hd
  · decide
  rcases List.mem_append.mp hd with h | hd
  · exact dumpStringJ_ge32 "risk" d h
  rcases List.mem_cons.mp hd with rfl | hd
  · decide
  rcases List.mem_cons.mp hd with rfl | hd
  · decide
  rcases List.mem_append.mp hd with h | hd
  · exact dumpStringJ_ge32 k d h
  · rcases List.mem_singleton.mp hd with rfl
    decide

theorem collect_snapshots_single
    (tagMap : List (String × List String)) (hashS sid level : String)
    (bodyChars : List Char) (reasonRes : Option Json)
    (hh30 : Char.ofNat 30 ∉ hashS.data) (hh31 : Char.ofNat 31 ∉ hashS.data)
    (hsid : validSnapshotId sid)
    (hlvl10 : '\n' ∉ level.data) (hlvl30 : Char.ofNat 30 ∉ level.data)
    (hlvlOB : '[' ∉ level.data) (hlvlCB : ']' ∉ level.data)
    (hb30 : Char.ofNat 30 ∉ bodyChars)
    (hstep : (if bodyChars.isEmpty then (Except.ok none : Except Err (Option Json))
        else match jsonLoads (String.mk bodyChars) with
          | none => Except.ok none
          | some (Json.obj ms) => Except.ok (objGetLast ms "reason")
          | some _ => Except.error (Err.other "object has no attribute 'get'")) =
      Except.ok reasonRes) :
    collect_snapshots (String.mk ((hashS.data ++ Char.ofNat 31 ::
        ("TimeMachine snapshot ".data ++ (sid.data ++ (' ' :: '[' ::
          (level.data ++ (']' :: '\n' :: '\n' :: bodyChars)))))) ++ [Char.ofNat 30]))
        tagMap =
      Except.ok [Entry.mk sid (String.mk (breakAtChar '-' sid.data).1) level reasonRes
        (dictGet tagMap sid) hashS] := by
  have hsidv := hsid.2
  have hmsg30 : Char.ofNat 30 ∉ "TimeMachine snapshot ".data ++ (sid.data ++ (' ' :: '[' ::
      (level.data ++ (']' :: '\n' :: '\n' :: bodyChars)))) := by
    intro hm
    rcases List.mem_append.mp hm with h | h
    · exact absurd h (by decide)
    rcases List.mem_append.mp h with h | h
    · exact (ne_of_pred_false (hsidv _ h) (by decide)) rfl
    rcases List.mem_cons.mp h with he | h
    · exact absurd he (by decide)
    rcases List.mem_cons.mp h with he | h
    · exact absurd he (by decide)
    rcases List.mem_append.mp h with h | h
    · exact hlvl30 h
    rcases List.mem_cons.mp h with he | h
    · exact absurd he (by decide)
    rcases List.mem_cons.mp h with he | h
    · exact absurd he (by decide)
    rcases List.mem_cons.mp h with he | h
    · exact absurd he (by decide)
    · exact hb30 h
  have hrec30 : Char.ofNat 30 ∉ hashS.data ++ Char.ofNat 31 ::
      ("TimeMachine snapshot ".data ++ (sid.data ++ (' ' :: '[' ::
        (level.data ++ (']' :: '\n' :: '\n' :: bodyChars))))) := by
    intro hm
    rcases List.mem_append.mp hm with h | h
    · exact hh30 h
    rcases List.mem_cons.mp h with he | h
    · exact absurd he (by decide)
    · exact hmsg30 h
  have hTmem : 'T' ∈ hashS.data ++ Char.ofNat 31 ::
      ("TimeMachine snapshot ".data ++ (sid.data ++ (' ' :: '[' ::
        (level.data ++ (']' :: '\n' :: '\n' :: bodyChars))))) := by
    refine List.mem_append.mpr (Or.inr (List.mem_cons.mpr (Or.inr ?_)))
    exact List.mem_append.mpr (Or.inl (by decide))
  have hstrip : (pyStrip (hashS.data ++ Char.ofNat 31 ::
      ("TimeMachine snapshot ".data ++ (sid.data ++ (' ' :: '[' ::
        (level.data ++ (']' :: '\n' :: '\n' :: bodyChars))))))).isEmpty = false := by
    refine isEmpty_false_of_ne (fun hnil => ?_)
    have := pyStrip_eq_nil_imp hnil 'T' hTmem
    exact absurd this (by decide)
  have hpre : pyStartsWith ("TimeMachine snapshot ".data ++ (sid.data ++ (' ' :: '[' ::
      (level.data ++ (']' :: '\n' :: '\n' :: bodyChars)))))
      "TimeMachine snapshot".data = true := by
    show ("TimeMachine snapshot".data).isPrefixOf _ = true
    refine List.isPrefixOf_iff_prefix.mpr ?_
    show "TimeMachine snapshot".data <+:
      "TimeMachine snapshot".data ++ (' ' :: (sid.data ++ (' ' :: '[' ::
        (level.data ++ (']' :: '\n' :: '\n' :: bodyChars)))))
    exact List.prefix_append _ _
  have hhdr10 : '\n' ∉ "TimeMachine snapshot ".data ++ (sid.data ++ (' ' :: '[' ::
      (level.data ++ [']']))) := by
    intro hm
    rcases List.mem_append.mp hm with h | h
    · exact absurd h (by decide)
    rcases List.mem_append.mp h with h | h
    · exact (ne_of_pred_false (hsidv _ h) (by decide)) rfl
    rcases List.mem_cons.mp h with he | h
    · exact absurd he (by decide)
    rcases List.mem_cons.mp h with he | h
    · exact absurd he (by decide)
    rcases List.mem_append.mp h with h | h
    · exact hlvl10 h
    · exact absurd (List.mem_singleton.mp h) (by decide)
  have hpart : pyPartitionNN ("TimeMachine snapshot ".data ++ (sid.data ++ (' ' :: '[' ::
      (level.data ++ (']' :: '\n' :: '\n' :: bodyChars))))) =
      ("TimeMachine snapshot ".data ++ (sid.data ++ (' ' :: '[' ::
        (level.data ++ [']']))), bodyChars) := by
    have hsh : "TimeMachine snapshot ".data ++ (sid.data ++ (' ' :: '[' ::
        (level.data ++ (']' :: '\n' :: '\n' :: bodyChars)))) =
        ("TimeMachine snapshot ".data ++ (sid.data ++ (' ' :: '[' ::
          (level.data ++ [']'])))) ++ '\n' :: '\n' :: bodyChars := by
      simp [List.append_assoc]
    rw [hsh, pyPartitionNN_append hhdr10]
  have hget : (pySplitWs ("TimeMachine snapshot ".data ++ (sid.data ++ (' ' :: '[' ::
      (level.data ++ [']']))))).get? 2 = some sid.data :=
    header_tokens sid.data ('[' :: (level.data ++ [']'])) hsid.1
      (fun x hx => validSidChar_not_space (hsidv x hx))
  have hOBpre : '[' ∉ "TimeMachine snapshot ".data ++ (sid.data ++ [' ']) := by
    intro hm
    rcases List.mem_append.mp hm with h | h
    · exact absurd h (by decide)
    rcases List.mem_append.mp h with h | h
    · exact (ne_of_pred_false (hsidv _ h) (by decide)) rfl
    · exact absurd (List.mem_singleton.mp h) (by decide)
  have hOBtail : '[' ∉ level.data ++ [']'] := by
    intro hm
    rcases List.mem_append.mp hm with h | h
    · exact hlvlOB h
    · exact absurd (List.mem_singleton.mp h) (by decide)
  have hlev : pyRstrip ']' (lastPart (pySplitChar '['
      ("TimeMachine snapshot ".data ++ (sid.data ++ (' ' :: '[' ::
        (level.data ++ [']'])))))) = level.data := by
    have hsh : "TimeMachine snapshot ".data ++ (sid.data ++ (' ' :: '[' ::
        (level.data ++ [']']))) =
        ("TimeMachine snapshot ".data ++ (sid.data ++ [' '])) ++ '[' ::
          (level.data ++ [']']) := by
      simp [List.append_assoc]
    rw [hsh, pySplitChar_append_sep hOBpre, pySplitChar_not_mem hOBtail]
    show pyRstrip ']' (level.data ++ [']']) = level.data
    exact pyRstrip_append ']' hlvlCB
  show collectRecords tagMap (pySplitChar (Char.ofNat 30)
      ((hashS.data ++ Char.ofNat 31 :: ("TimeMachine snapshot ".data ++ (sid.data ++ (' ' :: '[' :: (level.data ++ (']' :: '\n' :: '\n' :: bodyChars)))))) ++ Char.ofNat 30 :: [])) = _
  rw [pySplitChar_append_sep hrec30]
  show collectRecords tagMap ((hashS.data ++ Char.ofNat 31 :: ("TimeMachine snapshot ".data ++ (sid.data ++ (' ' :: '[' :: (level.data ++ (']' :: '\n' :: '\n' :: bodyChars)))))) :: [[]]) = _
  rw [collectRecords]
  rw [if_neg (show ¬((pyStrip (hashS.data ++ Char.ofNat 31 :: ("TimeMachine snapshot ".data ++ (sid.data ++ (' ' :: '[' :: (level.data ++ (']' :: '\n' :: '\n' :: bodyChars))))))).isEmpty = true) from by
    rw [hstrip]; exact fun h => Bool.noConfusion h)]
  rw [breakAtChar_append hh31]
  show (if ¬pyStartsWith ("TimeMachine snapshot ".data ++ (sid.data ++ (' ' :: '[' :: (level.data ++ (']' :: '\n' :: '\n' :: bodyChars))))) "TimeMachine snapshot".data then collectRecords tagMap [[]]
    else
      match (pySplitWs (pyPartitionNN ("TimeMachine snapshot ".data ++ (sid.data ++ (' ' :: '[' :: (level.data ++ (']' :: '\n' :: '\n' :: bodyChars)))))).1).get? 2 with
      | none => Except.error (Err.other "list index out of range")
      | some sidTok =>
        match (if (pyPartitionNN ("TimeMachine snapshot ".data ++ (sid.data ++ (' ' :: '[' :: (level.data ++ (']' :: '\n' :: '\n' :: bodyChars)))))).2.isEmpty then
            (Except.ok none : Except Err (Option Json))
          else match jsonLoads (String.mk (pyPartitionNN ("TimeMachine snapshot ".data ++ (sid.data ++ (' ' :: '[' :: (level.data ++ (']' :: '\n' :: '\n' :: bodyChars)))))).2) with
            | none => Except.ok none
            | some (Json.obj ms) => Except.ok (objGetLast ms "reason")
            | some _ => Except.error (Err.other "object has no attribute 'get'")) with
        | Except.error e => Except.error e
        | Except.ok reason =>
          match collectRecords tagMap [[]] with
          | Except.error e => Except.error e
          | Except.ok es => Except.ok (Entry.mk (String.mk sidTok)
              (String.mk (breakAtChar '-' sidTok).1)
              (String.mk (pyRstrip ']' (lastPart (pySplitChar '[' (pyPartitionNN ("TimeMachine snapshot ".data ++ (sid.data ++ (' ' :: '[' :: (level.data ++ (']' :: '\n' :: '\n' :: bodyChars)))))).1))))
              reason (dictGet tagMap (String.mk sidTok)) (String.mk hashS.data) :: es)) = _
  rw [if_neg (not_not_intro hpre), hpart]
  show (match (pySplitWs ("TimeMachine snapshot ".data ++ (sid.data ++ (' ' :: '[' :: (level.data ++ [']']))))).get? 2 with
    | none => Except.error (Err.other "list index out of range")
    | some sidTok =>
      match (if bodyChars.isEmpty then (Except.ok none : Except Err (Option Json))
        else match jsonLoads (String.mk bodyChars) with
          | none => Except.ok none
          | some (Json.obj ms) => Except.ok (objGetLast ms "reason")
          | some _ => Except.error (Err.other "object has no attribute 'get'")) with
      | Except.error e => Except.error e
      | Except.ok reason =>
        match collectRecords tagMap [[]] with
        | Except.error e => Except.error e
        | Except.ok es => Except.ok (Entry.mk (String.mk sidTok)
            (String.mk (breakAtChar '-' sidTok).1)
            (String.mk (pyRstrip ']' (lastPart (pySplitChar '[' ("TimeMachine snapshot ".data ++ (sid.data ++ (' ' :: '[' :: (level.data ++ [']']))))))))
            reason (dictGet tagMap (String.mk sidTok)) (String.mk hashS.data) :: es)) = _
  rw [hget, hstep]
  show (match collectRecords tagMap [[]] with
    | Except.error e => Except.error e
    | Except.ok es => Except.ok (Entry.mk (String.mk sid.data)
        (String.mk (breakAtChar '-' sid.data).1)
        (String.mk (pyRstrip ']' (lastPart (pySplitChar '[' ("TimeMachine snapshot ".data ++ (sid.data ++ (' ' :: '[' :: (level.data ++ [']']))))))))
        reasonRes (dictGet tagMap (String.mk sid.data)) (String.mk hashS.data) :: es)) = _
  rw [hlev]
  rfl

theorem mk_data_eq (s : String) : String.mk s.data = s := rfl

/-- C1: round-trip of the commit-message envelope, under the side conditions
the claim's quantifiers leave implicit: the snapshot id has its generated
shape, the level has no control characters and no square brackets, the
reason is non-empty and control-free, and the configured risk note and the
changed paths are control-free.  Parsing the commit record written by
`_build_commit_message` with `_collect_snapshots` returns an entry carrying
exactly the original reason and level. -/
theorem snapshot_list_roundtrip (cfg : Config) (tagMap : List (String × List String))
    (hashS sid level reason : String) (paths : List String)
    (hh30 : Char.ofNat 30 ∉ hashS.data) (hh31 : Char.ofNat 31 ∉ hashS.data)
    (hsid : validSnapshotId sid)
    (hlvl : hasNoCtrl level) (hlvlOB : '[' ∉ level.data) (hlvlCB : ']' ∉ level.data)
    (hreason : reason ≠ "") (hrc : hasNoCtrl reason)
    (hrisk : hasNoCtrl (riskNote cfg level))
    (hps : ∀ p ∈ paths, hasNoCtrl p) :
    collect_snapshots (hashS ++ String.mk [Char.ofNat 31] ++
        build_commit_message cfg sid level (some reason) paths ++
        String.mk [Char.ofNat 30]) tagMap =
      Except.ok [Entry.mk sid (String.mk (breakAtChar '-' sid.data).1) level
        (some (Json.str reason)) (dictGet tagMap sid) hashS] := by
  have hrt : reasonText (some reason) = reason := by
    show (if reason = "" then "No reason provided" else reason) = reason
    rw [if_neg hreason]
  have hr32 := hasNoCtrl_ge32 hrc
  have hk32 := hasNoCtrl_ge32 hrisk
  have hp32 : ∀ p ∈ paths, ∀ c ∈ p.data, 32 ≤ c.toNat :=
    fun p hp => hasNoCtrl_ge32 (hps p hp)
  have hloads := jsonLoads_envelope reason (riskNote cfg level) paths hr32 hk32 hp32
  have hb30 : Char.ofNat 30 ∉ jsonDumps (envelopeBody reason (riskNote cfg level) paths) :=
    fun hm => absurd (dumps_env_ge32 reason (riskNote cfg level) paths _ hm) (by decide)
  have hie : (jsonDumps (envelopeBody reason (riskNote cfg level) paths)).isEmpty = false := by
    rw [show jsonDumps (envelopeBody reason (riskNote cfg level) paths) =
      lbrace :: (dumpMembers [("reason", Json.str reason),
        ("changed_paths", Json.arr (paths.map .str)),
        ("risk", Json.str (riskNote cfg level))] ++ [rbrace]) from by
          simp [jsonDumps, envelopeBody]]
    rfl
  have hstep : (if (jsonDumps (envelopeBody reason (riskNote cfg level) paths)).isEmpty then
      (Except.ok none : Except Err (Option Json))
    else match jsonLoads (String.mk
        (jsonDumps (envelopeBody reason (riskNote cfg level) paths))) with
      | none => Except.ok none
      | some (Json.obj ms) => Except.ok (objGetLast ms "reason")
      | some _ => Except.error (Err.other "object has no attribute 'get'")) =
      Except.ok (some (Json.str reason)) := by
    rw [if_neg (by rw [hie]; exact fun h => Bool.noConfusion h), hloads]
    rfl
  have hmain := collect_snapshots_single tagMap hashS sid level
    (jsonDumps (envelopeBody reason (riskNote cfg level) paths)) (some (Json.str reason))
    hh30 hh31 hsid
    (fun hm => absurd (hlvl _ hm) (by decide))
    (fun hm => absurd (hlvl _ hm) (by decide))
    hlvlOB hlvlCB hb30 hstep
  have hinput : hashS ++ String.mk [Char.ofNat 31] ++
      build_commit_message cfg sid level (some reason) paths ++
      String.mk [Char.ofNat 30] =
      String.mk ((hashS.data ++ Char.ofNat 31 ::
        ("TimeMachine snapshot ".data ++ (sid.data ++ (' ' :: '[' ::
          (level.data ++ (']' :: '\n' :: '\n' ::
            jsonDumps (envelopeBody reason (riskNote cfg level) paths))))))) ++
        [Char.ofNat 30]) := by
    apply String.ext
    simp [build_commit_message, hrt, strData_append, strData_mk, List.append_assoc]
  rw [hinput]
  exact hmain

/-- C8: a record whose header has the canonical three-token shape but whose
body after the blank line is absent or not well-formed JSON still yields an
entry, with `reason` absent. -/
theorem malformed_body_degrades (tagMap : List (String × List String))
    (hashS sid level body : String)
    (hh30 : Char.ofNat 30 ∉ hashS.data) (hh31 : Char.ofNat 31 ∉ hashS.data)
    (hsid : validSnapshotId sid)
    (hlvl10 : '\n' ∉ level.data) (hlvl30 : Char.ofNat 30 ∉ level.data)
    (hlvlOB : '[' ∉ level.data) (hlvlCB : ']' ∉ level.data)
    (hb30 : Char.ofNat 30 ∉ body.data)
    (hmal : body = "" ∨ jsonLoads body = none) :
    collect_snapshots (hashS ++ String.mk [Char.ofNat 31] ++
        ("TimeMachine snapshot " ++ sid ++ " [" ++ level ++ "]\n\n" ++ body) ++
        String.mk [Char.ofNat 30]) tagMap =
      Except.ok [Entry.mk sid (String.mk (breakAtChar '-' sid.data).1) level
        none (dictGet tagMap sid) hashS] := by
  have hstep : (if body.data.isEmpty then (Except.ok none : Except Err (Option Json))
    else match jsonLoads (String.mk body.data) with
      | none => Except.ok none
      | some (Json.obj ms) => Except.ok (objGetLast ms "reason")
      | some _ => Except.error (Err.other "object has no attribute 'get'")) =
      Except.ok none := by
    rcases hmal with rfl | hnone
    · rfl
    · by_cases hbe : body.data.isEmpty = true
      · rw [if_pos hbe]
      · rw [if_neg hbe]
        show (match jsonLoads body with
          | none => (Except.ok none : Except Err (Option Json))
          | some (Json.obj ms) => Except.ok (objGetLast ms "reason")
          | some _ => Except.error (Err.other "object has no attribute 'get'")) =
          Except.ok none
        rw [hnone]
  have hmain := collect_snapshots_single tagMap hashS sid level body.data none
    hh30 hh31 hsid hlvl10 hlvl30 hlvlOB hlvlCB hb30 hstep
  have hinput : hashS ++ String.mk [Char.ofNat 31] ++
      ("TimeMachine snapshot " ++ sid ++ " [" ++ level ++ "]\n\n" ++ body) ++
      String.mk [Char.ofNat 30] =
      String.mk ((hashS.data ++ Char.ofNat 31 ::
        ("TimeMachine snapshot ".data ++ (sid.data ++ (' ' :: '[' ::
          (level.data ++ (']' :: '\n' :: '\n' :: body.data)))))) ++
        [Char.ofNat 30]) := by
    apply String.ext
    simp [strData_append, strData_mk, List.append_assoc]
  rw [hinput]
  exact hmain

/-- C8 counterexample: a record whose message starts with the
`TimeMachine snapshot` marker but whose header has only two
whitespace-separated tokens makes the history parser raise
`IndexError: list index out of range` instead of producing an entry. -/
theorem missing_id_token_raises :
    collect_snapshots (String.mk ("deadbeef".data ++ Char.ofNat 31 ::
        "TimeMachine snapshot".data)) [] =
      Except.error (Err.other "list index out of range") := by rfl

set_option maxRecDepth 4000 in
/-- C1 counterexample: with the empty reason string (which contains no
control characters) the commit round-trip returns `"No reason provided"`,
not the original reason. -/
theorem roundtrip_fails_for_empty_reason :
    ("" : String) ≠ "No reason provided" ∧
    collect_snapshots ("deadbeef" ++ String.mk [Char.ofNat 31] ++
        build_commit_message cfgTest "20250101-000000-ab12" "normal" (some "") ["a.txt"] ++
        String.mk [Char.ofNat 30]) [] =
      Except.ok [Entry.mk "20250101-000000-ab12" "20250101" "normal"
        (some (Json.str "No reason provided")) [] "deadbeef"] :=
  ⟨by decide, by rfl⟩

set_option maxRecDepth 4000 in
/-- Witness for C1 at a concrete configuration, id, level, reason and path
list: the parsed entry returns the original reason and level. -/
theorem snapshot_list_roundtrip_witness :
    validSnapshotId "20250101-000000-ab12" ∧ ("tuning" : String) ≠ "" ∧
    hasNoCtrl "tuning" ∧
    collect_snapshots ("deadbeef" ++ String.mk [Char.ofNat 31] ++
        build_commit_message cfgTest "20250101-000000-ab12" "normal" (some "tuning")
          ["a.txt"] ++
        String.mk [Char.ofNat 30]) [] =
      Except.ok [Entry.mk "20250101-000000-ab12" "20250101" "normal"
        (some (Json.str "tuning")) [] "deadbeef"] :=
  ⟨by decide, by decide, by decide,
   snapshot_list_roundtrip cfgTest [] "deadbeef" "20250101-000000-ab12" "normal" "tuning"
     ["a.txt"] (by decide) (by decide) (by decide) (by decide) (by decide) (by decide)
     (by decide) (by decide) (by decide) (by decide)⟩

set_option maxRecDepth 4000 in
/-- Witness for C8 at a concrete record whose body is not JSON: the entry is
produced with `reason` absent. -/
theorem malformed_body_degrades_witness :
    (("not json" : String) = "" ∨ jsonLoads "not json" = none) ∧
    collect_snapshots ("deadbeef" ++ String.mk [Char.ofNat 31] ++
        ("TimeMachine snapshot " ++ "20250101-000000-ab12" ++ " [" ++ "normal" ++
          "]\n\n" ++ "not json") ++
        String.mk [Char.ofNat 30]) [] =
      Except.ok [Entry.mk "20250101-000000-ab12" "20250101" "normal" none [] "deadbeef"] :=
  ⟨Or.inr (by rfl),
   malformed_body_degrades [] "deadbeef" "20250101-000000-ab12" "normal" "not json"
     (by decide) (by decide) (by decide) (by decide) (by decide) (by decide) (by decide)
     (by decide) (Or.inr (by rfl))⟩

end TMSkill
